import Mathlib

/-!
Shallow embedding of `ext/rblineprof.c`: a line-granularity wall-clock
profiler for a Ruby 1.8 interpreter.  The C program keeps one global
`rblineprof` struct; `profiler_hook` fires on every executed line and
accumulates elapsed microseconds per line of each in-scope file;
`lineprof` is the session entry point.

Modelling conventions:
* `sourcefile_t` becomes `Sourcefile`; the `lines`/`nlines` pair is a
  `List Nat` (`nlines = lines.length`; `lines == NULL` iff the list is
  empty, which matches the C code since every allocation has size
  `last_line + 100 ≥ 100 > 0` and the session cleanup resets both
  together).
* `uint64_t` microsecond counters and timestamps are `Nat`: the spec
  assumes a monotone clock, so `now - last_time` never underflows and the
  counters never reach `2^64` in any scenario the claims quantify over;
  `now - last_time` is `Nat` subtraction, which agrees with the C
  `uint64_t` subtraction whenever `last_time ≤ now`.
* `long line` is `Int` so the `line <= 0` guard is faithful.
* the `st_table` of the regex mode is an association list with the
  `st_insert`/`st_lookup` semantics used by the C code (one live entry
  per key); the `Qnil` negative-cache sentinel becomes
  `RegEntry.rejected`.
* C file identifiers are interned `char *` pointers
  (`node->nd_file` / `rb_source_filename`): Ruby 1.8 interns source file
  names, so pointer equality coincides with string equality, and file
  identifiers are modelled as `String`.
* records are addressed by `FileKey` (`.single` is `&rblineprof.file`,
  `.reg name` is the heap record stored under `name`); within a session
  this is exactly the C pointer identity of `rblineprof.last_file`.
* the host pieces (`rb_add_event_hook`/`rb_remove_event_hook`,
  `rb_ensure`, `rb_yield`) are modelled by running the work unit's event
  list through the hook while a `hooked` flag is set, with the ensure
  block applied on both the normal and the raising exit.
-/

namespace Rblineprof

/-- `sourcefile_t`: one file's accumulated per-line timing state. -/
structure Sourcefile where
  filename : String
  lines : List Nat
  last_time : Nat
  last_line : Nat
deriving Repr, DecidableEq

/-- A value stored in the regex-mode `st_table`: either the `Qnil`
negative-cache sentinel or an owned record. -/
inductive RegEntry where
  | rejected
  | accepted (sf : Sourcefile)
deriving Repr, DecidableEq

/-- Identity of a record, standing in for the C record pointer:
`&rblineprof.file` or the heap record stored under a table key. -/
inductive FileKey where
  | single
  | reg (name : String)
deriving Repr, DecidableEq

/-- The global `rblineprof` struct, plus a `hooked` flag recording
whether `profiler_hook` is currently registered with the host. -/
structure ProfState where
  enabled : Bool
  hooked : Bool
  source_filename : Option String
  source_regex : Option (String → Bool)
  files : List (String × RegEntry)
  file : Sourcefile
  last_file : Option FileKey

/-- One host line event: `node->nd_file`, `nd_line(node)` and the value
the monotone clock `timeofday_usec` returns while handling it. -/
structure Event where
  file : Option String
  line : Int
  time : Nat
deriving Repr, DecidableEq

/-- `st_lookup` on the association-list table. -/
def lookupFile : List (String × RegEntry) → String → Option RegEntry
  | [], _ => none
  | (k, v) :: rest, f => if k = f then some v else lookupFile rest f

/-- `st_insert` / in-place update: replace the entry under `f`, or append
a new one. -/
def setFile : List (String × RegEntry) → String → RegEntry → List (String × RegEntry)
  | [], f, e => [(f, e)]
  | (k, v) :: rest, f, e => if k = f then (f, e) :: rest else (k, v) :: setFile rest f e

/-- The record-update block of `profiler_hook` (C lines 90-115): if an
interval is open, lazily allocate / grow the line array and credit the
elapsed time to the line being left, then open a new interval at
`(now, line)`. -/
def sample (sf : Sourcefile) (now : Nat) (line : Nat) : Sourcefile :=
  let sf :=
    if sf.last_time ≠ 0 then
      -- allocate space for per-line data the first time
      let sf :=
        if sf.lines.length = 0 then
          { sf with lines := List.replicate (sf.last_line + 100) 0 }
        else sf
      -- grow the per-line array if necessary
      let sf :=
        if sf.lines.length ≤ sf.last_line then
          { sf with lines :=
              sf.lines ++ List.replicate (sf.last_line + 100 - sf.lines.length) 0 }
        else sf
      -- record the sample
      { sf with lines :=
          sf.lines.set sf.last_line (sf.lines.getD sf.last_line 0 + (now - sf.last_time)) }
    else sf
  { sf with last_time := now, last_line := line }

/-- Reset a record's `last_time` through the `rblineprof.last_file`
pointer (C line 118). -/
def resetRecord (st : ProfState) (k : FileKey) : ProfState :=
  match k with
  | .single => { st with file := { st.file with last_time := 0 } }
  | .reg name =>
    match lookupFile st.files name with
    | some (.accepted sf) =>
        { st with files := setFile st.files name (.accepted { sf with last_time := 0 }) }
    | _ => st

/-- The active-file switch of `profiler_hook` (C lines 117-120). -/
def touchActive (st : ProfState) (k : FileKey) : ProfState :=
  let st :=
    match st.last_file with
    | some prev => if prev ≠ k then resetRecord st prev else st
    | none => st
  { st with last_file := some k }

/-- Sample the record identified by `k` and run the active-file switch
(the `if (sourcefile)` block of `profiler_hook`, C lines 90-121). -/
def applySample (st : ProfState) (k : FileKey) (now : Nat) (line : Nat) : ProfState :=
  match k with
  | .single => touchActive { st with file := sample st.file now line } .single
  | .reg f =>
    match lookupFile st.files f with
    | some (.accepted sf) =>
        touchActive { st with files := setFile st.files f (.accepted (sample sf now line)) } (.reg f)
    | _ => st

/-- `profiler_hook` (C lines 52-122).  The hook only runs while a session
is active; in regex-mode sessions `source_regex` is always set, so the
final fallback branch is unreachable in reachable states. -/
def profiler_hook (st : ProfState) (e : Event) : ProfState :=
  match e.file with
  | none => st
  | some f =>
    if e.line ≤ 0 then st
    else
      match st.source_filename with
      | some target => -- single file mode
        if target = f then
          applySample { st with file := { st.file with filename := f } } .single
            e.time e.line.toNat
        else st
      | none => -- regex mode
        match lookupFile st.files f with
        | some .rejected => st -- known negative match, skip
        | some (.accepted _) => applySample st (.reg f) e.time e.line.toNat
        | none => -- unknown file, check against regex
          match st.source_regex with
          | some p =>
            if p f then
              let fresh : Sourcefile :=
                { filename := f, lines := [], last_time := 0, last_line := 0 }
              applySample { st with files := setFile st.files f (.accepted fresh) }
                (.reg f) e.time e.line.toNat
            else -- no match, insert Qnil to prevent regex next time
              { st with files := setFile st.files f .rejected }
          | none => st

/-- Deliver a list of host line events to the hook, in program order. -/
def runEvents (st : ProfState) (evs : List Event) : ProfState :=
  evs.foldl profiler_hook st

/-- The Ruby value passed to `lineprof`: a String, a Regexp (modelled by
its match predicate), or anything else. -/
inductive SelVal where
  | str (s : String)
  | regex (p : String → Bool)
  | other

/-- The errors `lineprof` can signal. -/
inductive ProfError where
  | blockRequired
  | alreadyEnabled
  | badArgument
  | workUnitFailure
deriving Repr, DecidableEq

/-- The block given to `lineprof`: the line events its execution emits,
and whether it terminates abnormally (raises). -/
structure WorkUnit where
  events : List Event
  raises : Bool
deriving Repr, DecidableEq

/-- The result hash: file name to per-line microsecond array. -/
abbrev Report := List (String × List Nat)

/-- `summarize_files` folded over the table (C lines 139-155): skip the
`Qnil` sentinels, emit `filename` mapped to a copy of the line array. -/
def summarize (files : List (String × RegEntry)) : Report :=
  files.filterMap fun kv =>
    match kv.2 with
    | .rejected => none
    | .accepted sf => some (sf.filename, sf.lines)

/-- Building the result hash (C lines 197-208). -/
def buildReport (st : ProfState) : Report :=
  match st.source_filename with
  | some target => [(target, st.file.lines)]
  | none => summarize st.files

/-- The cleanup block of `lineprof` (C lines 184-191): clear the active
pointer, destroy every table entry, free the fast-path line array.  Note
that `file.last_time` and `file.last_line` are NOT reset. -/
def clearSession (st : ProfState) : ProfState :=
  { st with
      last_file := none,
      files := [],
      file := { st.file with lines := [] } }

/-- Session state right after `rb_add_event_hook` (C lines 184-194). -/
def startState (st : ProfState) : ProfState :=
  let st := clearSession st
  { st with enabled := true, hooked := true }

/-- Run the work unit under profiling with the `rb_ensure` teardown
(C lines 193-210): events are delivered while the hook is registered;
`lineprof_ensure` removes the hook and disables the profiler on both
exits; a raising work unit propagates its failure with no report. -/
def runSession (st : ProfState) (w : WorkUnit) :
    Except (ProfError × ProfState) (Report × ProfState) :=
  let st1 := runEvents (startState st) w.events
  let st2 := { st1 with enabled := false, hooked := false }
  if w.raises then .error (.workUnitFailure, st2)
  else .ok (buildReport st2, st2)

/-- `lineprof` (C lines 164-211).  Usage errors are raised, in source
order, before any state is touched; a valid String/Regexp selector is
stored and then the session runs. -/
def lineprof (st : ProfState) (arg : SelVal) (work : Option WorkUnit) :
    Except (ProfError × ProfState) (Report × ProfState) :=
  match work with
  | none => .error (.blockRequired, st)
  | some w =>
    if st.enabled then .error (.alreadyEnabled, st)
    else
      match arg with
      | .str s => runSession { st with source_filename := some s } w
      | .regex p => runSession { st with source_regex := some p, source_filename := none } w
      | .other => .error (.badArgument, st)

/-- The process-global state installed by `Init_rblineprof`. -/
def initState : ProfState :=
  { enabled := false, hooked := false,
    source_filename := none, source_regex := none,
    files := [],
    file := { filename := "", lines := [], last_time := 0, last_line := 0 },
    last_file := none }

/-- The report of a successful session (empty on error). -/
def sessionResult (st : ProfState) (arg : SelVal) (w : Option WorkUnit) : Report :=
  match lineprof st arg w with
  | .ok (r, _) => r
  | .error _ => []

/-- The state a `lineprof` call leaves behind, on either exit. -/
def finalState (res : Except (ProfError × ProfState) (Report × ProfState)) : ProfState :=
  match res with
  | .ok (_, st) => st
  | .error (_, st) => st

/-- The line array of the first entry of a report. -/
def firstArr (r : Report) : List Nat := (r.headD ("", [])).2

/-- `arr[i]` with the zero default (indices beyond the allocated
capacity hold no time). -/
def lineVal : List Nat → Nat → Nat
  | [], _ => 0
  | x :: _, 0 => x
  | _ :: rest, i + 1 => lineVal rest i

/-- Specification-side accounting: starting from an open interval
`(t, l)`, each event closes the current interval, crediting its duration
to the line being left. -/
def creditChain : Nat → Nat → List Event → Nat → Nat
  | _, _, [], _ => 0
  | t, l, e :: rest, i =>
    (if l = i then e.time - t else 0) + creditChain e.time e.line.toNat rest i

/-- Specification-side accounting for a whole single-file trace: event
`j+1` credits `t_{j+1} - t_j` to line `l_j`; the last line gets nothing. -/
def creditList : List Event → Nat → Nat
  | [], _ => 0
  | e :: rest, i => creditChain e.time e.line.toNat rest i

/-- The lines a single-file trace ever credits: the lines of every event
except the last. -/
def creditedLines : List Event → List Nat
  | [] => []
  | [_] => []
  | e :: rest => e.line.toNat :: creditedLines rest

/-- The per-record line-array fold a pure single-file trace performs
(each matching event stores the interned name and samples the fast-path
record). -/
def sampleRun (sf : Sourcefile) (target : String) (evs : List Event) : Sourcefile :=
  evs.foldl (fun s e => sample { s with filename := target } e.time e.line.toNat) sf

/-- The line array of the record addressed by `k` (empty when absent). -/
def linesAt (st : ProfState) (k : FileKey) : List Nat :=
  match k with
  | .single => st.file.lines
  | .reg n =>
    match lookupFile st.files n with
    | some (.accepted sf) => sf.lines
    | _ => []

/-- The `last_time` of the record addressed by `k` (zero when absent). -/
def lastTimeAt (st : ProfState) (k : FileKey) : Nat :=
  match k with
  | .single => st.file.last_time
  | .reg n =>
    match lookupFile st.files n with
    | some (.accepted sf) => sf.last_time
    | _ => 0

/-- Whether a line event is in scope for a single-file session on
`target`. -/
def inScopeSingle (target : String) (e : Event) : Bool :=
  e.file == some target && decide (0 < e.line)

/-- Whether a line event is in scope for the regex-mode record of file
`f` under pattern `p`. -/
def inScopeReg (p : String → Bool) (f : String) (e : Event) : Bool :=
  e.file == some f && decide (0 < e.line) && p f

/-! Basic lemmas about `lineVal` and the list operations `sample` uses. -/

theorem lineVal_eq_getD (ls : List Nat) : ∀ i, lineVal ls i = ls.getD i 0 := by
  induction ls with
  | nil => intro i; simp [lineVal, List.getD]
  | cons x rest ih =>
    intro i
    cases i with
    | zero => simp [lineVal, List.getD]
    | succ j => simpa [lineVal, List.getD] using ih j

theorem lineVal_replicate (n i : Nat) : lineVal (List.replicate n 0) i = 0 := by
  induction n generalizing i with
  | zero => simp [lineVal]
  | succ m ih =>
    cases i with
    | zero => simp [List.replicate, lineVal]
    | succ j => simpa [List.replicate, lineVal] using ih j

theorem lineVal_append_replicate (ls : List Nat) (n : Nat) :
    ∀ i, lineVal (ls ++ List.replicate n 0) i = lineVal ls i := by
  induction ls with
  | nil => intro i; simpa [lineVal] using lineVal_replicate n i
  | cons x rest ih =>
    intro i
    cases i with
    | zero => simp [lineVal]
    | succ j => simpa [lineVal] using ih j

theorem lineVal_set (ls : List Nat) :
    ∀ j v i, j < ls.length →
      lineVal (ls.set j v) i = if j = i then v else lineVal ls i := by
  induction ls with
  | nil => intro j v i h; simp at h
  | cons x rest ih =>
    intro j v i h
    cases j with
    | zero =>
      cases i with
      | zero => simp [lineVal]
      | succ k => simp [lineVal]
    | succ j0 =>
      cases i with
      | zero => simp [lineVal]
      | succ k =>
        have hj : j0 < rest.length := by simpa using h
        have := ih j0 v k hj
        by_cases hjk : j0 = k
        · subst hjk; simpa [lineVal] using this
        · simp only [List.set, lineVal]
          simpa [hjk] using this

/-! Characterisation of `sample`. -/

theorem sample_filename (sf : Sourcefile) (now l : Nat) :
    (sample sf now l).filename = sf.filename := by
  unfold sample
  split_ifs <;> simp [apply_ite Sourcefile.filename]

theorem sample_last_time (sf : Sourcefile) (now l : Nat) :
    (sample sf now l).last_time = now := by
  unfold sample
  split_ifs <;> simp

theorem sample_last_line (sf : Sourcefile) (now l : Nat) :
    (sample sf now l).last_line = l := by
  unfold sample
  split_ifs <;> simp

theorem sample_lines_of_zero (sf : Sourcefile) (now l : Nat) (h : sf.last_time = 0) :
    (sample sf now l).lines = sf.lines := by
  unfold sample
  simp [h]

theorem sample_length (sf : Sourcefile) (now l : Nat) (h : sf.last_time ≠ 0) :
    (sample sf now l).lines.length =
      if sf.lines.length ≤ sf.last_line then sf.last_line + 100 else sf.lines.length := by
  unfold sample
  simp only [h, if_true, ne_eq, not_false_iff]
  by_cases h0 : sf.lines.length = 0
  · have hle : sf.lines.length ≤ sf.last_line := by omega
    simp [h0, hle, List.length_set]
  · simp only [h0, if_false]
    by_cases hle : sf.lines.length ≤ sf.last_line
    · simp only [hle, if_true, List.length_set, List.length_append, List.length_replicate]
      omega
    · simp only [hle, if_false, List.length_set]

theorem sample_lineVal (sf : Sourcefile) (now l : Nat) (h : sf.last_time ≠ 0) (i : Nat) :
    lineVal (sample sf now l).lines i
      = lineVal sf.lines i + (if sf.last_line = i then now - sf.last_time else 0) := by
  obtain ⟨fn, ls, lt, ll⟩ := sf
  simp only [ne_eq] at h
  simp only [sample, ne_eq, h, not_false_iff, if_true]
  by_cases h0 : ls.length = 0
  · have hnil : ls = [] := List.length_eq_zero.mp h0
    subst hnil
    have hgrow : ¬ (ll + 100 ≤ ll) := by omega
    simp only [List.length_nil, eq_self_iff_true, if_true, List.length_replicate, hgrow,
      if_false]
    rw [lineVal_set _ _ _ _ (by simp only [List.length_replicate]; omega)]
    rw [← lineVal_eq_getD]
    by_cases hi : ll = i
    · subst hi; simp [lineVal_replicate, lineVal]
    · simp [hi, lineVal_replicate, lineVal]
  · simp only [h0, if_false]
    by_cases hle : ls.length ≤ ll
    · have hlt : ll < (ls ++ List.replicate (ll + 100 - ls.length) (0 : Nat)).length := by
        simp only [List.length_append, List.length_replicate]; omega
      simp only [hle, if_true]
      rw [lineVal_set _ _ _ _ hlt]
      rw [← lineVal_eq_getD, lineVal_append_replicate]
      by_cases hi : ll = i
      · subst hi; simp [lineVal_append_replicate]
      · simp [hi, lineVal_append_replicate]
    · have hlt : ll < ls.length := by omega
      simp only [hle, if_false]
      rw [lineVal_set _ _ _ _ hlt]
      rw [← lineVal_eq_getD]
      by_cases hi : ll = i
      · subst hi; simp
      · simp [hi]

theorem sample_lineVal_le (sf : Sourcefile) (now l : Nat) (i : Nat) :
    lineVal sf.lines i ≤ lineVal (sample sf now l).lines i := by
  by_cases h : sf.last_time = 0
  · rw [sample_lines_of_zero sf now l h]
  · rw [sample_lineVal sf now l h i]; omega

theorem sample_length_le (sf : Sourcefile) (now l : Nat) :
    sf.lines.length ≤ (sample sf now l).lines.length := by
  by_cases h : sf.last_time = 0
  · rw [sample_lines_of_zero sf now l h]
  · rw [sample_length sf now l h]
    by_cases hle : sf.lines.length ≤ sf.last_line <;> simp [hle]
    omega

theorem sample_changed_lt (sf : Sourcefile) (now l : Nat) (i : Nat)
    (h : lineVal (sample sf now l).lines i ≠ lineVal sf.lines i) :
    i < (sample sf now l).lines.length := by
  by_cases h0 : sf.last_time = 0
  · exact absurd (by rw [sample_lines_of_zero sf now l h0]) h
  · rw [sample_lineVal sf now l h0 i] at h
    have hil : sf.last_line = i := by
      by_contra hne
      simp [hne] at h
    rw [sample_length sf now l h0]
    by_cases hle : sf.lines.length ≤ sf.last_line <;> simp [hle] <;> omega

/-! Lemmas about the association-list table. -/

theorem lookup_setFile_eq (fs : List (String × RegEntry)) (f : String) (e : RegEntry) :
    lookupFile (setFile fs f e) f = some e := by
  induction fs with
  | nil => simp [setFile, lookupFile]
  | cons kv rest ih =>
    obtain ⟨k, v⟩ := kv
    by_cases h : k = f
    · simp [setFile, lookupFile, h]
    · simp [setFile, lookupFile, h, ih]

theorem lookup_setFile_ne (fs : List (String × RegEntry)) (f g : String) (e : RegEntry)
    (h : f ≠ g) : lookupFile (setFile fs f e) g = lookupFile fs g := by
  induction fs with
  | nil => simp [setFile, lookupFile, h]
  | cons kv rest ih =>
    obtain ⟨k, v⟩ := kv
    by_cases hk : k = f
    · subst hk
      simp [setFile, lookupFile, h]
    · simp only [setFile, hk, if_false, lookupFile]
      by_cases hg : k = g <;> simp [hg, ih]

theorem mem_setFile {fs : List (String × RegEntry)} {f : String} {e : RegEntry}
    {g : String} {en : RegEntry} (h : (g, en) ∈ setFile fs f e) :
    (g = f ∧ en = e) ∨ (g, en) ∈ fs := by
  induction fs with
  | nil =>
    simp [setFile] at h
    exact Or.inl h
  | cons kv rest ih =>
    obtain ⟨k, v⟩ := kv
    by_cases hk : k = f
    · subst hk
      simp only [setFile, eq_self_iff_true, if_true, List.mem_cons, Prod.mk.injEq] at h
      rcases h with h | h
      · exact Or.inl h
      · exact Or.inr (List.mem_cons_of_mem _ h)
    · simp only [setFile, hk, if_false, List.mem_cons, Prod.mk.injEq] at h
      rcases h with h | h
      · exact Or.inr (by simp [h.1, h.2])
      · rcases ih h with h2 | h2
        · exact Or.inl h2
        · exact Or.inr (List.mem_cons_of_mem _ h2)

theorem lookupFile_mem {fs : List (String × RegEntry)} {f : String} {e : RegEntry}
    (h : lookupFile fs f = some e) : (f, e) ∈ fs := by
  induction fs with
  | nil => simp [lookupFile] at h
  | cons kv rest ih =>
    obtain ⟨k, v⟩ := kv
    by_cases hk : k = f
    · subst hk
      simp only [lookupFile, eq_self_iff_true, if_true, Option.some_inj] at h
      subst h
      exact List.mem_cons_self _ _
    · simp only [lookupFile, hk, if_false] at h
      exact List.mem_cons_of_mem _ (ih h)

/-! State-level lemmas: the active-file switch. -/

theorem resetRecord_source_filename (st : ProfState) (k : FileKey) :
    (resetRecord st k).source_filename = st.source_filename := by
  cases k with
  | single => rfl
  | reg name =>
    cases hm : lookupFile st.files name with
    | none => simp [resetRecord, hm]
    | some en => cases en <;> simp [resetRecord, hm]

theorem resetRecord_last_file (st : ProfState) (k : FileKey) :
    (resetRecord st k).last_file = st.last_file := by
  cases k with
  | single => rfl
  | reg name =>
    cases hm : lookupFile st.files name with
    | none => simp [resetRecord, hm]
    | some en => cases en <;> simp [resetRecord, hm]

theorem resetRecord_linesAt (st : ProfState) (k0 k : FileKey) :
    linesAt (resetRecord st k0) k = linesAt st k := by
  cases k0 with
  | single =>
    cases k with
    | single => simp [resetRecord, linesAt]
    | reg n => simp [resetRecord, linesAt]
  | reg name =>
    cases hm : lookupFile st.files name with
    | none => simp [resetRecord, hm]
    | some en =>
      cases en with
      | rejected => simp [resetRecord, hm]
      | accepted sf =>
        cases k with
        | single => simp [resetRecord, hm, linesAt]
        | reg n =>
          by_cases hn : name = n
          · subst hn
            simp [resetRecord, hm, linesAt, lookup_setFile_eq]
          · simp [resetRecord, hm, linesAt, lookup_setFile_ne _ _ _ _ hn]

theorem touchActive_last_file (st : ProfState) (k : FileKey) :
    (touchActive st k).last_file = some k := by
  unfold touchActive
  cases h : st.last_file with
  | none => rfl
  | some prev => by_cases hp : prev ≠ k <;> simp [hp]

theorem touchActive_source_filename (st : ProfState) (k : FileKey) :
    (touchActive st k).source_filename = st.source_filename := by
  unfold touchActive
  cases h : st.last_file with
  | none => rfl
  | some prev =>
    by_cases hp : prev ≠ k <;> simp [hp, resetRecord_source_filename]

theorem linesAt_set_last_file (st : ProfState) (lf : Option FileKey) (k : FileKey) :
    linesAt { st with last_file := lf } k = linesAt st k := by
  cases k <;> rfl

theorem touchActive_linesAt (st : ProfState) (k0 k : FileKey) :
    linesAt (touchActive st k0) k = linesAt st k := by
  unfold touchActive
  cases h : st.last_file with
  | none => exact linesAt_set_last_file _ _ _
  | some prev =>
    dsimp only
    by_cases hp : prev = k0
    · rw [if_neg (by simp [hp])]
      exact linesAt_set_last_file _ _ _
    · rw [if_pos hp, linesAt_set_last_file]
      exact resetRecord_linesAt st prev k

theorem touchActive_eq_of_last_file (st : ProfState) (k : FileKey)
    (h : st.last_file = none ∨ st.last_file = some k) :
    touchActive st k = { st with last_file := some k } := by
  unfold touchActive
  rcases h with h | h
  · rw [h]
  · rw [h]
    simp

/-! The hook on skipped events and on single-file-mode events. -/

theorem hook_file_none (st : ProfState) (e : Event) (h : e.file = none) :
    profiler_hook st e = st := by
  unfold profiler_hook
  rw [h]

theorem hook_line_nonpos (st : ProfState) (e : Event) (h : e.line ≤ 0) :
    profiler_hook st e = st := by
  unfold profiler_hook
  cases hf : e.file with
  | none => rfl
  | some f => simp [h]

theorem hook_single_skip (st : ProfState) (e : Event) (target f : String)
    (hsf : st.source_filename = some target) (hf : e.file = some f) (hne : target ≠ f) :
    profiler_hook st e = st := by
  unfold profiler_hook
  rw [hf]
  by_cases hl : e.line ≤ 0
  · simp [hl]
  · simp [hl, hsf, hne]

theorem applySample_single (st : ProfState) (now l : Nat)
    (h : st.last_file = none ∨ st.last_file = some .single) :
    applySample st .single now l
      = { st with file := sample st.file now l, last_file := some .single } := by
  unfold applySample
  dsimp only
  have h2 : ({ st with file := sample st.file now l } : ProfState).last_file = none
      ∨ ({ st with file := sample st.file now l } : ProfState).last_file = some .single := h
  rw [touchActive_eq_of_last_file _ _ h2]

theorem hook_single_eq (st : ProfState) (e : Event) (target : String)
    (hsf : st.source_filename = some target) (hf : e.file = some target) (hl : 0 < e.line)
    (hlast : st.last_file = none ∨ st.last_file = some .single) :
    profiler_hook st e
      = { st with
            file := sample { st.file with filename := target } e.time e.line.toNat,
            last_file := some .single } := by
  unfold profiler_hook
  rw [hf, hsf]
  dsimp only
  rw [if_neg (by omega : ¬ e.line ≤ 0), if_pos rfl]
  exact applySample_single _ _ _ hlast

/-- Evaluating a pure single-file trace: the state evolves by folding
`sample` over the fast-path record, `source_filename` is untouched and
the active pointer stays on (or becomes) the fast-path record. -/
theorem runEvents_single (target : String) (evs : List Event) :
    ∀ st : ProfState, st.source_filename = some target →
      (∀ e ∈ evs, e.file = some target ∧ 0 < e.line) →
      (st.last_file = none ∨ st.last_file = some .single) →
      (runEvents st evs).file = sampleRun st.file target evs
      ∧ (runEvents st evs).source_filename = some target
      ∧ ((runEvents st evs).last_file = none ∨ (runEvents st evs).last_file = some .single) := by
  induction evs with
  | nil =>
    intro st h1 _ h3
    exact ⟨rfl, h1, h3⟩
  | cons e rest ih =>
    intro st h1 h2 h3
    have he := h2 e (List.mem_cons_self _ _)
    have hstep := hook_single_eq st e target h1 he.1 he.2 h3
    have hrest : ∀ e2 ∈ rest, e2.file = some target ∧ 0 < e2.line :=
      fun e2 hm => h2 e2 (List.mem_cons_of_mem _ hm)
    have h1' : (profiler_hook st e).source_filename = some target := by
      rw [hstep]
      exact h1
    have hlast' : (profiler_hook st e).last_file = none
        ∨ (profiler_hook st e).last_file = some .single := by
      rw [hstep]
      exact Or.inr rfl
    obtain ⟨ha, hb, hc⟩ := ih (profiler_hook st e) h1' hrest hlast'
    refine ⟨?_, hb, hc⟩
    show (runEvents (profiler_hook st e) rest).file = sampleRun st.file target (e :: rest)
    rw [ha, hstep]
    rfl

/-! Accounting: the line array a single-file trace produces is exactly
the interval sums of `creditChain` / `creditList`. -/

theorem sampleRun_lineVal (target : String) (evs : List Event) :
    ∀ sf : Sourcefile, sf.last_time ≠ 0 → (∀ e ∈ evs, 0 < e.time) →
      ∀ i, lineVal (sampleRun sf target evs).lines i
        = lineVal sf.lines i + creditChain sf.last_time sf.last_line evs i := by
  induction evs with
  | nil =>
    intro sf h0 _ i
    simp [sampleRun, creditChain]
  | cons e rest ih =>
    intro sf h0 hpos i
    have hstep : lineVal (sample { sf with filename := target } e.time e.line.toNat).lines i
        = lineVal sf.lines i + (if sf.last_line = i then e.time - sf.last_time else 0) := by
      have := sample_lineVal { sf with filename := target } e.time e.line.toNat
        (by simpa using h0) i
      simpa using this
    have h0' : (sample { sf with filename := target } e.time e.line.toNat).last_time ≠ 0 := by
      rw [sample_last_time]
      exact Nat.pos_iff_ne_zero.mp (hpos e (List.mem_cons_self _ _))
    have hpos' : ∀ e2 ∈ rest, 0 < e2.time :=
      fun e2 hm => hpos e2 (List.mem_cons_of_mem _ hm)
    have hrest := ih (sample { sf with filename := target } e.time e.line.toNat) h0' hpos' i
    show lineVal (sampleRun (sample { sf with filename := target } e.time e.line.toNat)
        target rest).lines i = _
    rw [hrest, hstep, sample_last_time, sample_last_line]
    simp only [creditChain]
    omega

theorem sampleRun_clean (target : String) (evs : List Event) (sf : Sourcefile)
    (h0 : sf.last_time = 0) (hnil : sf.lines = [])
    (hpos : ∀ e ∈ evs, 0 < e.time) (i : Nat) :
    lineVal (sampleRun sf target evs).lines i = creditList evs i := by
  cases evs with
  | nil => simp [sampleRun, creditList, hnil, lineVal]
  | cons e rest =>
    have hfirst : sample { sf with filename := target } e.time e.line.toNat
        = { filename := target, lines := sf.lines,
            last_time := e.time, last_line := e.line.toNat } := by
      unfold sample
      simp [h0]
    have h0' : (sample { sf with filename := target } e.time e.line.toNat).last_time ≠ 0 := by
      rw [sample_last_time]
      exact Nat.pos_iff_ne_zero.mp (hpos e (List.mem_cons_self _ _))
    have hpos' : ∀ e2 ∈ rest, 0 < e2.time :=
      fun e2 hm => hpos e2 (List.mem_cons_of_mem _ hm)
    show lineVal (sampleRun (sample { sf with filename := target } e.time e.line.toNat)
        target rest).lines i = creditChain e.time e.line.toNat rest i
    rw [sampleRun_lineVal target rest _ h0' hpos' i, hfirst]
    simp [hnil, lineVal]

/-! Session-level helpers. -/

theorem buildReport_single (st : ProfState) (target : String)
    (h : st.source_filename = some target) :
    buildReport st = [(target, st.file.lines)] := by
  unfold buildReport
  rw [h]

theorem runSession_ok (st : ProfState) (evs : List Event) :
    runSession st ⟨evs, false⟩
      = .ok (buildReport
              { runEvents (startState st) evs with enabled := false, hooked := false },
             { runEvents (startState st) evs with enabled := false, hooked := false }) := rfl

theorem lineprof_str (st : ProfState) (target : String) (w : WorkUnit)
    (hen : st.enabled = false) :
    lineprof st (.str target) (some w)
      = runSession { st with source_filename := some target } w := by
  unfold lineprof
  rw [hen]
  rfl

/-- The report of a clean single-file session on a trace of in-scope
events is one entry for the target, holding the fold of `sample` over
the cleared fast-path record. -/
theorem sessionResult_single (st : ProfState) (target : String) (evs : List Event)
    (hen : st.enabled = false)
    (hall : ∀ e ∈ evs, e.file = some target ∧ 0 < e.line) :
    sessionResult st (.str target) (some ⟨evs, false⟩)
      = [(target, (sampleRun { st.file with lines := [] } target evs).lines)] := by
  have hrun := runEvents_single target evs
    (startState { st with source_filename := some target }) rfl hall (Or.inl rfl)
  unfold sessionResult
  rw [lineprof_str st target _ hen, runSession_ok]
  generalize hX : runEvents (startState { st with source_filename := some target }) evs = X
    at hrun ⊢
  have h2 : ({ X with enabled := false, hooked := false } : ProfState).source_filename
      = some target := hrun.2.1
  dsimp only
  rw [buildReport_single _ target h2]
  have h3 : ({ X with enabled := false, hooked := false } : ProfState).file.lines
      = (sampleRun { st.file with lines := [] } target evs).lines := by
    show X.file.lines = _
    rw [hrun.1]
    rfl
  rw [h3]

/-- C1: in a clean single-file session whose in-scope line events carry
strictly increasing positive timestamps `t_0 < t_1 < ...` on lines
`l_0, l_1, ...`, the report maps the target to an array in which every
interval `t_(j+1) - t_j` is credited to line `l_j` (the line being left)
and the last line receives no credit for time after the last event —
`creditList` is exactly that interval sum. -/
theorem c1_single_file_interval_accounting (target : String) (evs : List Event)
    (hfile : ∀ e ∈ evs, e.file = some target)
    (hline : ∀ e ∈ evs, 0 < e.line)
    (hpos : ∀ e ∈ evs, 0 < e.time)
    (_hmono : List.Chain' (fun a b => a < b) (evs.map Event.time)) :
    (sessionResult initState (.str target) (some ⟨evs, false⟩)).map Prod.fst = [target]
    ∧ ∀ i, lineVal (firstArr (sessionResult initState (.str target) (some ⟨evs, false⟩))) i
        = creditList evs i := by
  have hres := sessionResult_single initState target evs rfl
    (fun e he => ⟨hfile e he, hline e he⟩)
  rw [hres]
  constructor
  · rfl
  · intro i
    show lineVal (sampleRun { initState.file with lines := [] } target evs).lines i
      = creditList evs i
    exact sampleRun_clean target evs _ rfl rfl hpos i

/-- The event trace of the spec's concrete scenario. -/
def c1Events : List Event :=
  [⟨some "a.rb", 1, 1000⟩, ⟨some "a.rb", 2, 1005⟩,
   ⟨some "a.rb", 2, 1009⟩, ⟨some "a.rb", 3, 1020⟩]

/-- Witness for C1 at the spec's concrete scenario: events
`(t=1000,l=1), (t=1005,l=2), (t=1009,l=2), (t=1020,l=3)` produce
`lines[1] = 5`, `lines[2] = 15`, `lines[3] = 0`. -/
theorem c1_witness :
    lineVal (firstArr (sessionResult initState (.str "a.rb") (some ⟨c1Events, false⟩))) 1 = 5
    ∧ lineVal (firstArr (sessionResult initState (.str "a.rb") (some ⟨c1Events, false⟩))) 2 = 15
    ∧ lineVal (firstArr (sessionResult initState (.str "a.rb") (some ⟨c1Events, false⟩))) 3
        = 0 := by
  have h := c1_single_file_interval_accounting "a.rb" c1Events
    (by decide) (by decide) (by decide)
    (by norm_num [c1Events, List.chain'_cons])
  refine ⟨?_, ?_, ?_⟩
  · rw [h.2 1]
    decide
  · rw [h.2 2]
    decide
  · rw [h.2 3]
    decide

/-! Concrete two-session traces.  The session cleanup (C lines 184-191)
resets `lines`/`nlines` of the fast-path record but leaves its
`last_time`/`last_line` fields behind, so the first event of a later
session closes an interval opened in the previous one. -/

/-- A first single-file session on `a.rb`: events `(t=100, l=1)` and
`(t=200, l=2)`.  It ends with `file.last_time = 200`,
`file.last_line = 2`. -/
def c2FirstSession : Except (ProfError × ProfState) (Report × ProfState) :=
  lineprof initState (.str "a.rb")
    (some ⟨[⟨some "a.rb", 1, 100⟩, ⟨some "a.rb", 2, 200⟩], false⟩)

/-- The report of a second single-file session on the same selector,
with events `(t=1000, l=3)` and `(t=1010, l=4)`. -/
def c2SecondReport : Report :=
  sessionResult (finalState c2FirstSession) (.str "a.rb")
    (some ⟨[⟨some "a.rb", 3, 1000⟩, ⟨some "a.rb", 4, 1010⟩], false⟩)

set_option maxRecDepth 8000 in
/-- C2 (code bug): the second session's report is NOT computed purely
from its own events: it credits `1000 - 200 = 800` microseconds — the
time between the sessions — to line 2, the last line of the FIRST
session, because the cleanup left `file.last_time = 200` and
`file.last_line = 2` in place.  From the second session's events alone,
`lines[2]` would be `0` and only `lines[3] = 10` would be credited. -/
theorem c2_stale_interval_leaks_across_sessions :
    lineVal (firstArr c2SecondReport) 2 = 800
    ∧ lineVal (firstArr c2SecondReport) 3 = 10 := by
  constructor
  · decide
  · decide

/-- The pattern of the second (regex-mode) session used for C5. -/
def c5Pattern : String → Bool := fun s => s == "b.rb"

/-- The state at the start of a regex-mode session run right after
`c2FirstSession`, exactly as `lineprof` builds it. -/
def c5SecondStart : ProfState :=
  startState { finalState c2FirstSession with
    source_regex := some c5Pattern, source_filename := none }

/-- The state between events of that second session, after its first
event `(b.rb, l=5, t=1000)` has been dispatched. -/
def c5MidState : ProfState := profiler_hook c5SecondStart ⟨some "b.rb", 5, 1000⟩

set_option maxRecDepth 8000 in
/-- C5 (code bug): between events of the second session, TWO records
hold a non-zero last sample time — the stale fast-path record of the
previous single-file session (`last_time = 200`, never cleared by the
session cleanup) and the pattern record of `b.rb` (`last_time = 1000`)
— so there are two open intervals globally, not at most one. -/
theorem c5_two_open_intervals :
    c5MidState.file.last_time = 200
    ∧ lastTimeAt c5MidState (.reg "b.rb") = 1000 := by
  constructor
  · decide
  · decide

set_option maxRecDepth 8000 in
/-- C3 counterexample: a clean single-file session on `c.rb` whose only
event is `(t=100, l=500)`.  Line 500 is observed, yet the line array is
never allocated: the report maps `c.rb` to an empty array, so the
capacity (0) is NOT at least the highest observed line number (500) —
allocation is deferred to the next credit, which never comes. -/
theorem c3_capacity_counterexample :
    sessionResult initState (.str "c.rb") (some ⟨[⟨some "c.rb", 500, 100⟩], false⟩)
      = [("c.rb", [])] := by
  decide

set_option maxRecDepth 8000 in
/-- C4 counterexample, two scenarios.  First: the same one-event
session shape on `d.rb` with first observed line 500 produces an EMPTY
array (capacity 0 < 501) because allocation happens only at the first
credit.  Second: a session on `g.rb` with events `(t=100, l=500)`,
`(t=200, l=1)`, `(t=300, l=1)` does allocate capacity 600 ≥ 501, but
index 1 < 500 holds 100 (credited by the third event), so not every
index below 500 is zero-valued in the produced array. -/
theorem c4_counterexample :
    sessionResult initState (.str "d.rb") (some ⟨[⟨some "d.rb", 500, 7⟩], false⟩)
      = [("d.rb", [])]
    ∧ lineVal (firstArr (sessionResult initState (.str "g.rb")
        (some ⟨[⟨some "g.rb", 500, 100⟩, ⟨some "g.rb", 1, 200⟩,
                ⟨some "g.rb", 1, 300⟩], false⟩))) 1 = 100
    ∧ 501 ≤ (firstArr (sessionResult initState (.str "g.rb")
        (some ⟨[⟨some "g.rb", 500, 100⟩, ⟨some "g.rb", 1, 200⟩,
                ⟨some "g.rb", 1, 300⟩], false⟩))).length := by
  refine ⟨?_, ?_, ?_⟩
  · decide
  · decide
  · decide

/-- C6: each usage error — missing work unit, session already running,
selector of invalid type — is signalled before the work unit runs and
before any state mutation: the state returned with the error is exactly
the state passed in (no subscription, no registry or fast-path
clearing, and on the already-running case the active session's state
and active file are untouched). -/
theorem c6_usage_errors_no_mutation (st : ProfState) (arg : SelVal) (w : WorkUnit) :
    lineprof st arg none = .error (.blockRequired, st)
    ∧ (st.enabled = true → lineprof st arg (some w) = .error (.alreadyEnabled, st))
    ∧ (st.enabled = false → lineprof st .other (some w) = .error (.badArgument, st)) := by
  refine ⟨rfl, ?_, ?_⟩
  · intro hen
    unfold lineprof
    rw [hen]
    rfl
  · intro hen
    unfold lineprof
    rw [hen]
    rfl

/-- Witness for C6 at concrete inputs. -/
theorem c6_witness :
    lineprof initState (.str "a.rb") none = .error (.blockRequired, initState)
    ∧ lineprof { initState with enabled := true } (.str "a.rb") (some ⟨[], false⟩)
        = .error (.alreadyEnabled, { initState with enabled := true })
    ∧ lineprof initState .other (some ⟨[], false⟩)
        = .error (.badArgument, initState) := by
  have h1 := c6_usage_errors_no_mutation initState (.str "a.rb") ⟨[], false⟩
  have h2 := c6_usage_errors_no_mutation { initState with enabled := true }
    (.str "a.rb") ⟨[], false⟩
  have h3 := c6_usage_errors_no_mutation initState .other ⟨[], false⟩
  exact ⟨h1.1, h2.2.1 rfl, h3.2.2 rfl⟩

theorem runSession_err (st : ProfState) (evs : List Event) :
    runSession st ⟨evs, true⟩
      = .error (.workUnitFailure,
          { runEvents (startState st) evs with enabled := false, hooked := false }) := rfl

theorem lineprof_regex (st : ProfState) (p : String → Bool) (w : WorkUnit)
    (hen : st.enabled = false) :
    lineprof st (.regex p) (some w)
      = runSession { st with source_regex := some p, source_filename := none } w := by
  unfold lineprof
  rw [hen]
  rfl

/-- C7: on every exit of the work unit — normal completion or abnormal
termination — the hook is unsubscribed and the session is back to Idle
(`enabled = false`, `hooked = false`), so a later session can start;
normal completion returns the report of the final state, abnormal
termination propagates the failure with no report. -/
theorem c7_teardown_on_every_exit (st : ProfState) (target : String) (p : String → Bool)
    (w : WorkUnit) (hen : st.enabled = false) :
    ((finalState (lineprof st (.str target) (some w))).enabled = false
      ∧ (finalState (lineprof st (.str target) (some w))).hooked = false)
    ∧ ((finalState (lineprof st (.regex p) (some w))).enabled = false
      ∧ (finalState (lineprof st (.regex p) (some w))).hooked = false)
    ∧ (w.raises = true →
        lineprof st (.str target) (some w)
          = .error (.workUnitFailure, finalState (lineprof st (.str target) (some w))))
    ∧ (w.raises = false →
        lineprof st (.str target) (some w)
          = .ok (buildReport (finalState (lineprof st (.str target) (some w))),
                 finalState (lineprof st (.str target) (some w)))) := by
  obtain ⟨evs, r⟩ := w
  cases r with
  | false =>
    rw [lineprof_str st target _ hen, lineprof_regex st p _ hen, runSession_ok,
      runSession_ok]
    refine ⟨⟨rfl, rfl⟩, ⟨rfl, rfl⟩, ?_, ?_⟩
    · intro h
      exact Bool.noConfusion h
    · intro _
      rfl
  | true =>
    rw [lineprof_str st target _ hen, lineprof_regex st p _ hen, runSession_err,
      runSession_err]
    refine ⟨⟨rfl, rfl⟩, ⟨rfl, rfl⟩, ?_, ?_⟩
    · intro _
      rfl
    · intro h
      exact Bool.noConfusion h

/-- Witness for C7: a raising work unit under a single-file session on
the clean state. -/
theorem c7_witness :
    (finalState (lineprof initState (.str "a.rb") (some ⟨[], true⟩))).enabled = false
    ∧ (finalState (lineprof initState (.str "a.rb") (some ⟨[], true⟩))).hooked = false
    ∧ lineprof initState (.str "a.rb") (some ⟨[], true⟩)
        = .error (.workUnitFailure,
            finalState (lineprof initState (.str "a.rb") (some ⟨[], true⟩))) := by
  have h := c7_teardown_on_every_exit initState "a.rb" (fun _ => false) ⟨[], true⟩ rfl
  exact ⟨h.1.1, h.1.2, h.2.2.1 rfl⟩

theorem resetRecord_file_reg (st : ProfState) (n : String) :
    (resetRecord st (.reg n)).file = st.file := by
  cases hm : lookupFile st.files n with
  | none => simp [resetRecord, hm]
  | some en => cases en <;> simp [resetRecord, hm]

theorem touchActive_file_single (st : ProfState) :
    (touchActive st .single).file = st.file := by
  unfold touchActive
  cases h : st.last_file with
  | none => rfl
  | some prev =>
    dsimp only
    by_cases hp : prev = FileKey.single
    · rw [if_neg (by simp [hp])]
    · rw [if_pos hp]
      cases prev with
      | single => exact absurd rfl hp
      | reg n => exact resetRecord_file_reg st n

/-- C9: single-file selection. -/
theorem c9_single_file_selection (st : ProfState) (target f : String) (line : Int) (t : Nat)
    (hsf : st.source_filename = some target) (hl : 0 < line) :
    (f ≠ target → profiler_hook st ⟨some f, line, t⟩ = st)
    ∧ (f = target →
        (profiler_hook st ⟨some f, line, t⟩).file
            = sample { st.file with filename := f } t line.toNat
        ∧ (profiler_hook st ⟨some f, line, t⟩).last_file = some .single) := by
  constructor
  · intro hne
    exact hook_single_skip st ⟨some f, line, t⟩ target f hsf rfl (fun hh => hne hh.symm)
  · intro heq
    subst heq
    have hred : profiler_hook st ⟨some f, line, t⟩
        = touchActive { st with file := sample { st.file with filename := f } t line.toNat }
            .single := by
      unfold profiler_hook
      dsimp only
      rw [hsf]
      dsimp only
      rw [if_neg (by omega : ¬ line ≤ 0), if_pos rfl]
      unfold applySample
      dsimp only
    rw [hred]
    exact ⟨touchActive_file_single _, touchActive_last_file _ _⟩

/-- Witness for C9: with target `a.rb`, an event for `b.rb` leaves the
state untouched and an event for `a.rb` is attributed to the fast-path
record. -/
theorem c9_witness :
    profiler_hook { initState with source_filename := some "a.rb" } ⟨some "b.rb", 1, 50⟩
        = { initState with source_filename := some "a.rb" }
    ∧ (profiler_hook { initState with source_filename := some "a.rb" }
          ⟨some "a.rb", 2, 60⟩).file
        = sample { ({ initState with source_filename := some "a.rb" } : ProfState).file
            with filename := "a.rb" } 60 ((2 : Int)).toNat := by
  have h1 := c9_single_file_selection { initState with source_filename := some "a.rb" }
    "a.rb" "b.rb" 1 50 rfl (by norm_num)
  have h2 := c9_single_file_selection { initState with source_filename := some "a.rb" }
    "a.rb" "a.rb" 2 60 rfl (by norm_num)
  exact ⟨h1.1 (by decide), (h2.2 rfl).1⟩

theorem hook_single_linesAt (st : ProfState) (e : Event) (target f : String)
    (hsf : st.source_filename = some target) (hf : e.file = some f)
    (hl : ¬ e.line ≤ 0) (heq : target = f) (k : FileKey) :
    linesAt (profiler_hook st e) k
      = linesAt { st with
          file := sample { st.file with filename := f } e.time e.line.toNat } k := by
  unfold profiler_hook
  rw [hf, hsf]
  dsimp only
  rw [if_neg hl, if_pos heq]
  unfold applySample
  dsimp only
  rw [touchActive_linesAt]

theorem hook_regex_rejected_eq (st : ProfState) (e : Event) (f : String)
    (hsf : st.source_filename = none) (hf : e.file = some f)
    (hlook : lookupFile st.files f = some .rejected) :
    profiler_hook st e = st := by
  unfold profiler_hook
  rw [hf, hsf]
  dsimp only
  by_cases hl : e.line ≤ 0
  · rw [if_pos hl]
  · rw [if_neg hl, hlook]

theorem hook_regex_accepted_linesAt (st : ProfState) (e : Event) (f : String)
    (sf : Sourcefile)
    (hsf : st.source_filename = none) (hf : e.file = some f) (hl : ¬ e.line ≤ 0)
    (hacc : lookupFile st.files f = some (.accepted sf)) (k : FileKey) :
    linesAt (profiler_hook st e) k
      = linesAt { st with files := setFile st.files f (RegEntry.accepted (sample sf e.time e.line.toNat)) } k := by
  unfold profiler_hook
  rw [hf, hsf]
  dsimp only
  rw [if_neg hl, hacc]
  dsimp only
  unfold applySample
  dsimp only
  rw [hacc]
  dsimp only
  rw [touchActive_linesAt]
  cases k <;> rfl

theorem hook_regex_fresh_linesAt (st : ProfState) (e : Event) (f : String)
    (p : String → Bool)
    (hsf : st.source_filename = none) (hf : e.file = some f) (hl : ¬ e.line ≤ 0)
    (hnone : lookupFile st.files f = none) (hrx : st.source_regex = some p)
    (hp : p f = true) (k : FileKey) :
    linesAt (profiler_hook st e) k
      = linesAt { st with files := setFile st.files f (RegEntry.accepted (sample { filename := f, lines := [], last_time := 0, last_line := 0 } e.time e.line.toNat)) } k := by
  unfold profiler_hook
  rw [hf, hsf]
  dsimp only
  rw [if_neg hl, hnone]
  dsimp only
  rw [hrx]
  dsimp only
  rw [if_pos hp]
  unfold applySample
  dsimp only
  rw [lookup_setFile_eq]
  dsimp only
  rw [touchActive_linesAt]
  cases k with
  | single => rfl
  | reg n =>
    by_cases hn : f = n
    · subst hn
      simp [linesAt, lookup_setFile_eq]
    · simp [linesAt, lookup_setFile_ne _ _ _ _ hn]

theorem hook_regex_nomatch_eq (st : ProfState) (e : Event) (f : String)
    (p : String → Bool)
    (hsf : st.source_filename = none) (hf : e.file = some f) (hl : ¬ e.line ≤ 0)
    (hnone : lookupFile st.files f = none) (hrx : st.source_regex = some p)
    (hp : p f = false) :
    profiler_hook st e = { st with files := setFile st.files f .rejected } := by
  unfold profiler_hook
  rw [hf, hsf]
  dsimp only
  rw [if_neg hl, hnone]
  dsimp only
  rw [hrx]
  dsimp only
  rw [if_neg (by simp [hp])]

theorem hook_regex_none_eq (st : ProfState) (e : Event) (f : String)
    (hsf : st.source_filename = none) (hf : e.file = some f)
    (hnone : lookupFile st.files f = none) (hrx : st.source_regex = none) :
    profiler_hook st e = st := by
  unfold profiler_hook
  rw [hf, hsf]
  dsimp only
  by_cases hl : e.line ≤ 0
  · rw [if_pos hl]
  · rw [if_neg hl, hnone]
    dsimp only
    rw [hrx]

theorem linesConj_of_eq {a b : List Nat} (h : b = a) (i : Nat) :
    lineVal a i ≤ lineVal b i ∧ a.length ≤ b.length
    ∧ (lineVal b i ≠ lineVal a i → i < b.length) := by
  subst h
  exact ⟨le_refl _, le_refl _, fun hc => absurd rfl hc⟩

/-- C3 (amended): per dispatched event, every record's per-line counters
never decrease and its capacity never shrinks, and any index whose
counter changed by the event lies below the new capacity — so capacity
always exceeds every index ever credited.  (The capacity need NOT cover
the highest observed event line: allocation is deferred to the next
credit, see the counterexample.) -/
theorem c3_monotone_and_credited_capacity (st : ProfState) (e : Event) (k : FileKey)
    (i : Nat) :
    lineVal (linesAt st k) i ≤ lineVal (linesAt (profiler_hook st e) k) i
    ∧ (linesAt st k).length ≤ (linesAt (profiler_hook st e) k).length
    ∧ (lineVal (linesAt (profiler_hook st e) k) i ≠ lineVal (linesAt st k) i
        → i < (linesAt (profiler_hook st e) k).length) := by
  cases hf : e.file with
  | none => exact linesConj_of_eq (by rw [hook_file_none st e hf]) i
  | some f =>
    by_cases hl : e.line ≤ 0
    · exact linesConj_of_eq (by rw [hook_line_nonpos st e hl]) i
    · cases hsf : st.source_filename with
      | some target =>
        by_cases heq : target = f
        · have hred := hook_single_linesAt st e target f hsf hf hl heq
          cases k with
          | single =>
            rw [hred FileKey.single]
            exact ⟨sample_lineVal_le { st.file with filename := f } e.time e.line.toNat i,
              sample_length_le { st.file with filename := f } e.time e.line.toNat,
              sample_changed_lt { st.file with filename := f } e.time e.line.toNat i⟩
          | reg n =>
            rw [hred (FileKey.reg n)]
            exact linesConj_of_eq rfl i
        · exact linesConj_of_eq (by rw [hook_single_skip st e target f hsf hf heq]) i
      | none =>
        cases hlook : lookupFile st.files f with
        | some en =>
          cases en with
          | rejected =>
            exact linesConj_of_eq (by rw [hook_regex_rejected_eq st e f hsf hf hlook]) i
          | accepted sf =>
            have hred := hook_regex_accepted_linesAt st e f sf hsf hf hl hlook
            cases k with
            | single =>
              rw [hred FileKey.single]
              exact linesConj_of_eq rfl i
            | reg n =>
              by_cases hn : f = n
              · subst hn
                rw [hred (FileKey.reg f)]
                have hnew : linesAt { st with files := setFile st.files f (RegEntry.accepted (sample sf e.time e.line.toNat)) } (FileKey.reg f)
                    = (sample sf e.time e.line.toNat).lines := by
                  simp [linesAt, lookup_setFile_eq]
                have hold : linesAt st (FileKey.reg f) = sf.lines := by
                  simp [linesAt, hlook]
                rw [hnew, hold]
                exact ⟨sample_lineVal_le _ _ _ i, sample_length_le _ _ _,
                  sample_changed_lt _ _ _ i⟩
              · rw [hred (FileKey.reg n)]
                refine linesConj_of_eq ?_ i
                simp [linesAt, lookup_setFile_ne _ _ _ _ hn]
        | none =>
          cases hrx : st.source_regex with
          | none =>
            exact linesConj_of_eq (by rw [hook_regex_none_eq st e f hsf hf hlook hrx]) i
          | some p =>
            by_cases hp : p f = true
            · have hred := hook_regex_fresh_linesAt st e f p hsf hf hl hlook hrx hp
              have hfresh : (sample { filename := f, lines := [], last_time := 0, last_line := 0 } e.time e.line.toNat).lines = [] :=
                sample_lines_of_zero _ _ _ rfl
              cases k with
              | single =>
                rw [hred FileKey.single]
                exact linesConj_of_eq rfl i
              | reg n =>
                by_cases hn : f = n
                · subst hn
                  rw [hred (FileKey.reg f)]
                  refine linesConj_of_eq ?_ i
                  simp [linesAt, lookup_setFile_eq, hlook, hfresh]
                · rw [hred (FileKey.reg n)]
                  refine linesConj_of_eq ?_ i
                  simp [linesAt, lookup_setFile_ne _ _ _ _ hn]
            · have hred := hook_regex_nomatch_eq st e f p hsf hf hl hlook hrx
                (by simpa using hp)
              cases k with
              | single =>
                rw [hred]
                exact linesConj_of_eq rfl i
              | reg n =>
                rw [hred]
                by_cases hn : f = n
                · subst hn
                  refine linesConj_of_eq ?_ i
                  simp [linesAt, lookup_setFile_eq, hlook]
                · refine linesConj_of_eq ?_ i
                  simp [linesAt, lookup_setFile_ne _ _ _ _ hn]

/-- A single-file state with an open interval `(t=50, line 2)` on the
fast-path record. -/
def c3File : Sourcefile :=
  { filename := "a.rb", lines := [], last_time := 50, last_line := 2 }

def c3State : ProfState :=
  { initState with source_filename := some "a.rb", file := c3File }

/-- The event that closes that interval, crediting index 2. -/
def c3Event : Event := ⟨some "a.rb", 3, 60⟩

set_option maxRecDepth 8000 in
/-- Witness for C3 (amended): the event changes the counter at index 2
(0 becomes 10), index 2 lies below the new capacity (102), and the
counter did not decrease. -/
theorem c3_witness :
    lineVal (linesAt (profiler_hook c3State c3Event) .single) 2
        ≠ lineVal (linesAt c3State .single) 2
    ∧ 2 < (linesAt (profiler_hook c3State c3Event) .single).length
    ∧ lineVal (linesAt c3State .single) 2
        ≤ lineVal (linesAt (profiler_hook c3State c3Event) .single) 2 := by
  have h := c3_monotone_and_credited_capacity c3State c3Event .single 2
  exact ⟨by decide, h.2.2 (by decide), h.1⟩

theorem creditList_eq_zero_of_not_credited (evs : List Event) (i : Nat) :
    i ∉ creditedLines evs → creditList evs i = 0 := by
  induction evs with
  | nil => intro _; rfl
  | cons e rest ih =>
    cases rest with
    | nil => intro _; rfl
    | cons e2 rest2 =>
      intro h
      simp only [creditedLines, List.mem_cons, not_or] at h
      show (if e.line.toNat = i then e2.time - e.time else 0)
          + creditChain e2.time e2.line.toNat rest2 i = 0
      rw [if_neg (fun hh => h.1 hh.symm)]
      have h2 := ih h.2
      simpa [creditList] using h2

theorem sampleRun_length_le (target : String) (evs : List Event) :
    ∀ sf : Sourcefile, sf.lines.length ≤ (sampleRun sf target evs).lines.length := by
  induction evs with
  | nil => intro sf; exact le_refl _
  | cons e rest ih =>
    intro sf
    calc sf.lines.length
        ≤ (sample { sf with filename := target } e.time e.line.toNat).lines.length :=
          sample_length_le { sf with filename := target } e.time e.line.toNat
      _ ≤ _ := ih _

theorem sampleRun_first500_length (target : String) (e0 e1 : Event) (rest2 : List Event)
    (h500 : e0.line.toNat = 500) (ht0 : 0 < e0.time) :
    501 ≤ (sampleRun { initState.file with lines := [] }
        target (e0 :: e1 :: rest2)).lines.length := by
  have h1 : sampleRun { initState.file with lines := [] } target (e0 :: e1 :: rest2)
      = sampleRun (sample { filename := target, lines := [], last_time := e0.time, last_line := e0.line.toNat } e1.time e1.line.toNat) target rest2 := rfl
  have hne : ({ filename := target, lines := [], last_time := e0.time, last_line := e0.line.toNat } : Sourcefile).last_time ≠ 0 :=
    Nat.pos_iff_ne_zero.mp ht0
  have hlen2 : (sample { filename := target, lines := [], last_time := e0.time, last_line := e0.line.toNat } e1.time e1.line.toNat).lines.length = e0.line.toNat + 100 := by
    rw [sample_length _ _ _ hne]
    simp
  have hle := sampleRun_length_le target rest2
    (sample { filename := target, lines := [], last_time := e0.time, last_line := e0.line.toNat } e1.time e1.line.toNat)
  rw [h1]
  omega

/-- C4 (amended): the growth policy — lazy allocation at the first
credit with capacity `credited index + 100`, zero-filled; growth to
`index + 100` preserving existing entries and zero-filling only the new
region (both captured by the exact size and pointwise value
characterisation of `sample`) — and its consequence: a clean
single-file session whose first observed line is 500 and which receives
at least one further event yields capacity at least 501, and every
index never credited during the session (in particular any index below
500 that execution never leaves) reports zero. -/
theorem c4_growth_policy :
    (∀ sf : Sourcefile, ∀ now l : Nat,
      (sf.last_time = 0 → (sample sf now l).lines = sf.lines)
      ∧ (sf.last_time ≠ 0 →
          (sample sf now l).lines.length
            = (if sf.lines.length ≤ sf.last_line then sf.last_line + 100
               else sf.lines.length)
          ∧ ∀ i, lineVal (sample sf now l).lines i
              = lineVal sf.lines i
                + (if sf.last_line = i then now - sf.last_time else 0)))
    ∧ (∀ target : String, ∀ e0 : Event, ∀ rest : List Event,
        (∀ e ∈ e0 :: rest, e.file = some target) →
        (∀ e ∈ e0 :: rest, 0 < e.line) →
        (∀ e ∈ e0 :: rest, 0 < e.time) →
        e0.line.toNat = 500 → rest ≠ [] →
        501 ≤ (firstArr (sessionResult initState (.str target)
            (some ⟨e0 :: rest, false⟩))).length
        ∧ ∀ i, i < 500 → i ∉ creditedLines (e0 :: rest) →
            lineVal (firstArr (sessionResult initState (.str target)
              (some ⟨e0 :: rest, false⟩))) i = 0) := by
  constructor
  · intro sf now l
    exact ⟨fun h0 => sample_lines_of_zero sf now l h0,
      fun h0 => ⟨sample_length sf now l h0, fun i => sample_lineVal sf now l h0 i⟩⟩
  · intro target e0 rest hfile hline hpos h500 hne
    have hres := sessionResult_single initState target (e0 :: rest) rfl
      (fun e he => ⟨hfile e he, hline e he⟩)
    rw [hres]
    constructor
    · cases rest with
      | nil => exact absurd rfl hne
      | cons e1 rest2 =>
        exact sampleRun_first500_length target e0 e1 rest2 h500
          (hpos e0 (List.mem_cons_self _ _))
    · intro i _ hnc
      show lineVal (sampleRun { initState.file with lines := [] }
          target (e0 :: rest)).lines i = 0
      rw [sampleRun_clean target (e0 :: rest) _ rfl rfl hpos i]
      exact creditList_eq_zero_of_not_credited (e0 :: rest) i hnc

set_option maxRecDepth 8000 in
/-- Witness for C4: growing an open record `(last_time=5, last_line=7)`
with an empty array yields capacity 107 = 7 + 100; and a clean session
on `w.rb` with events `(t=10, l=500), (t=30, l=2)` yields capacity at
least 501 with the never-credited index 3 reporting zero. -/
theorem c4_witness :
    (sample { filename := "x", lines := [], last_time := 5, last_line := 7 } 9 3).lines.length = 107
    ∧ 501 ≤ (firstArr (sessionResult initState (.str "w.rb") (some ⟨[⟨some "w.rb", 500, 10⟩, ⟨some "w.rb", 2, 30⟩], false⟩))).length
    ∧ lineVal (firstArr (sessionResult initState (.str "w.rb") (some ⟨[⟨some "w.rb", 500, 10⟩, ⟨some "w.rb", 2, 30⟩], false⟩))) 3 = 0 := by
  have h1 := (c4_growth_policy.1 { filename := "x", lines := [], last_time := 5, last_line := 7 } 9 3).2 (by decide)
  have h2 := c4_growth_policy.2 "w.rb" ⟨some "w.rb", 500, 10⟩ [⟨some "w.rb", 2, 30⟩]
    (by decide) (by decide) (by decide) (by decide) (by decide)
  refine ⟨?_, h2.1, h2.2 3 (by decide) (by decide)⟩
  rw [h1.1]
  decide

theorem hook_single_match_eq (st : ProfState) (e : Event) (target f : String)
    (hsf : st.source_filename = some target) (hf : e.file = some f)
    (hl : ¬ e.line ≤ 0) (heq : target = f) :
    profiler_hook st e
      = touchActive { st with file := sample { st.file with filename := f } e.time e.line.toNat } .single := by
  unfold profiler_hook
  rw [hf, hsf]
  dsimp only
  rw [if_neg hl, if_pos heq]
  unfold applySample
  dsimp only

theorem hook_regex_accepted_eq (st : ProfState) (e : Event) (f : String) (sf : Sourcefile)
    (hsf : st.source_filename = none) (hf : e.file = some f) (hl : ¬ e.line ≤ 0)
    (hacc : lookupFile st.files f = some (.accepted sf)) :
    profiler_hook st e
      = touchActive { st with files := setFile st.files f (RegEntry.accepted (sample sf e.time e.line.toNat)) } (.reg f) := by
  unfold profiler_hook
  rw [hf, hsf]
  dsimp only
  rw [if_neg hl, hacc]
  dsimp only
  unfold applySample
  dsimp only
  rw [hacc]
  dsimp only
  rw [hsf]

theorem hook_regex_fresh_eq (st : ProfState) (e : Event) (f : String) (p : String → Bool)
    (hsf : st.source_filename = none) (hf : e.file = some f) (hl : ¬ e.line ≤ 0)
    (hnone : lookupFile st.files f = none) (hrx : st.source_regex = some p)
    (hp : p f = true) :
    profiler_hook st e
      = touchActive { st with files := setFile (setFile st.files f (RegEntry.accepted { filename := f, lines := [], last_time := 0, last_line := 0 })) f (RegEntry.accepted (sample { filename := f, lines := [], last_time := 0, last_line := 0 } e.time e.line.toNat)) } (.reg f) := by
  unfold profiler_hook
  rw [hf, hsf]
  dsimp only
  rw [if_neg hl, hnone]
  dsimp only
  rw [hrx]
  dsimp only
  rw [if_pos hp]
  unfold applySample
  dsimp only
  rw [lookup_setFile_eq]

/-- Exhaustive dispatch of `profiler_hook`: the hook either leaves the
state unchanged, samples the fast-path record (single-file match),
samples an accepted table record, creates-and-samples a fresh record on
a first-sighting pattern match, or caches a rejection. -/
theorem hook_cases (st : ProfState) (e : Event) :
    profiler_hook st e = st
    ∨ (∃ f, e.file = some f ∧ ¬ e.line ≤ 0 ∧ st.source_filename = some f
        ∧ profiler_hook st e = touchActive { st with file := sample { st.file with filename := f } e.time e.line.toNat } .single)
    ∨ (∃ f sf, e.file = some f ∧ ¬ e.line ≤ 0 ∧ st.source_filename = none
        ∧ lookupFile st.files f = some (RegEntry.accepted sf)
        ∧ profiler_hook st e = touchActive { st with files := setFile st.files f (RegEntry.accepted (sample sf e.time e.line.toNat)) } (.reg f))
    ∨ (∃ f p, e.file = some f ∧ ¬ e.line ≤ 0 ∧ st.source_filename = none
        ∧ lookupFile st.files f = none ∧ st.source_regex = some p ∧ p f = true
        ∧ profiler_hook st e = touchActive { st with files := setFile (setFile st.files f (RegEntry.accepted { filename := f, lines := [], last_time := 0, last_line := 0 })) f (RegEntry.accepted (sample { filename := f, lines := [], last_time := 0, last_line := 0 } e.time e.line.toNat)) } (.reg f))
    ∨ (∃ f p, e.file = some f ∧ ¬ e.line ≤ 0 ∧ st.source_filename = none
        ∧ lookupFile st.files f = none ∧ st.source_regex = some p ∧ p f = false
        ∧ profiler_hook st e = { st with files := setFile st.files f RegEntry.rejected }) := by
  cases hf : e.file with
  | none => exact Or.inl (hook_file_none st e hf)
  | some f =>
    by_cases hl : e.line ≤ 0
    · exact Or.inl (hook_line_nonpos st e hl)
    · cases hsf : st.source_filename with
      | some target =>
        by_cases heq : target = f
        · subst heq
          have h2 := hook_single_match_eq st e target target hsf hf hl rfl
          rw [hsf] at h2
          exact Or.inr (Or.inl ⟨target, rfl, hl, rfl, h2⟩)
        · exact Or.inl (hook_single_skip st e target f hsf hf heq)
      | none =>
        cases hlook : lookupFile st.files f with
        | some en =>
          cases en with
          | rejected => exact Or.inl (hook_regex_rejected_eq st e f hsf hf hlook)
          | accepted sf =>
            have h2 := hook_regex_accepted_eq st e f sf hsf hf hl hlook
            rw [hsf] at h2
            exact Or.inr (Or.inr (Or.inl ⟨f, sf, rfl, hl, rfl, hlook, h2⟩))
        | none =>
          cases hrx : st.source_regex with
          | none => exact Or.inl (hook_regex_none_eq st e f hsf hf hlook hrx)
          | some p =>
            by_cases hp : p f = true
            · have h2 := hook_regex_fresh_eq st e f p hsf hf hl hlook hrx hp
              rw [hsf, hrx] at h2
              exact Or.inr (Or.inr (Or.inr (Or.inl ⟨f, p, rfl, hl, rfl, hlook, rfl, hp, h2⟩)))
            · have hp2 : p f = false := by simpa using hp
              have h2 := hook_regex_nomatch_eq st e f p hsf hf hl hlook hrx hp2
              rw [hsf, hrx] at h2
              exact Or.inr (Or.inr (Or.inr (Or.inr ⟨f, p, rfl, hl, rfl, hlook, rfl, hp2, h2⟩)))

theorem resetRecord_source_regex (st : ProfState) (k : FileKey) :
    (resetRecord st k).source_regex = st.source_regex := by
  cases k with
  | single => rfl
  | reg name =>
    cases hm : lookupFile st.files name with
    | none => simp [resetRecord, hm]
    | some en => cases en <;> simp [resetRecord, hm]

theorem touchActive_source_regex (st : ProfState) (k : FileKey) :
    (touchActive st k).source_regex = st.source_regex := by
  unfold touchActive
  cases h : st.last_file with
  | none => rfl
  | some prev =>
    by_cases hp : prev ≠ k <;> simp [hp, resetRecord_source_regex]

theorem hook_source_filename (st : ProfState) (e : Event) :
    (profiler_hook st e).source_filename = st.source_filename := by
  rcases hook_cases st e with h | ⟨f, _, _, _, h⟩ | ⟨f, sf, _, _, _, _, h⟩
    | ⟨f, p, _, _, _, _, _, _, h⟩ | ⟨f, p, _, _, _, _, _, _, h⟩
  · rw [h]
  · rw [h, touchActive_source_filename]
  · rw [h, touchActive_source_filename]
  · rw [h, touchActive_source_filename]
  · rw [h]

theorem hook_source_regex (st : ProfState) (e : Event) :
    (profiler_hook st e).source_regex = st.source_regex := by
  rcases hook_cases st e with h | ⟨f, _, _, _, h⟩ | ⟨f, sf, _, _, _, _, h⟩
    | ⟨f, p, _, _, _, _, _, _, h⟩ | ⟨f, p, _, _, _, _, _, _, h⟩
  · rw [h]
  · rw [h, touchActive_source_regex]
  · rw [h, touchActive_source_regex]
  · rw [h, touchActive_source_regex]
  · rw [h]

theorem runEvents_source_filename (evs : List Event) :
    ∀ st : ProfState, (runEvents st evs).source_filename = st.source_filename := by
  induction evs with
  | nil => intro st; rfl
  | cons e rest ih =>
    intro st
    show (runEvents (profiler_hook st e) rest).source_filename = _
    rw [ih, hook_source_filename]

theorem runEvents_source_regex (evs : List Event) :
    ∀ st : ProfState, (runEvents st evs).source_regex = st.source_regex := by
  induction evs with
  | nil => intro st; rfl
  | cons e rest ih =>
    intro st
    show (runEvents (profiler_hook st e) rest).source_regex = _
    rw [ih, hook_source_regex]

theorem mem_resetRecord_files {st : ProfState} {k0 : FileKey} {g : String} {en : RegEntry}
    (h : (g, en) ∈ (resetRecord st k0).files) :
    (g, en) ∈ st.files
    ∨ ∃ sf0, lookupFile st.files g = some (RegEntry.accepted sf0)
        ∧ en = RegEntry.accepted { sf0 with last_time := 0 } := by
  cases k0 with
  | single => exact Or.inl h
  | reg m =>
    cases hm : lookupFile st.files m with
    | none =>
      rw [resetRecord] at h
      rw [hm] at h
      exact Or.inl h
    | some en0 =>
      cases en0 with
      | rejected =>
        rw [resetRecord] at h
        rw [hm] at h
        exact Or.inl h
      | accepted sf0 =>
        rw [resetRecord] at h
        rw [hm] at h
        dsimp only at h
        rcases mem_setFile h with ⟨hgm, hen⟩ | hmem
        · subst hgm
          exact Or.inr ⟨sf0, hm, hen⟩
        · exact Or.inl hmem

theorem mem_touchActive_files {st : ProfState} {k0 : FileKey} {g : String} {en : RegEntry}
    (h : (g, en) ∈ (touchActive st k0).files) :
    (g, en) ∈ st.files
    ∨ ∃ sf0, lookupFile st.files g = some (RegEntry.accepted sf0)
        ∧ en = RegEntry.accepted { sf0 with last_time := 0 } := by
  rw [touchActive] at h
  cases hlf : st.last_file with
  | none =>
    rw [hlf] at h
    exact Or.inl h
  | some prev =>
    rw [hlf] at h
    dsimp only at h
    by_cases hp : prev = k0
    · rw [if_neg (by simp [hp])] at h
      exact Or.inl h
    · rw [if_pos hp] at h
      exact mem_resetRecord_files h

theorem touchActive_lookup_none {st : ProfState} {k0 : FileKey} {f : String}
    (h : lookupFile st.files f = none) :
    lookupFile (touchActive st k0).files f = none := by
  rw [touchActive]
  cases hlf : st.last_file with
  | none => exact h
  | some prev =>
    dsimp only
    by_cases hp : prev = k0
    · rw [if_neg (by simp [hp])]
      exact h
    · rw [if_pos hp]
      show lookupFile (resetRecord st prev).files f = none
      cases prev with
      | single => exact h
      | reg m =>
        cases hm : lookupFile st.files m with
        | none =>
          rw [resetRecord, hm]
          exact h
        | some en0 =>
          cases en0 with
          | rejected =>
            rw [resetRecord, hm]
            exact h
          | accepted sf0 =>
            have hmf : m ≠ f := by
              intro hh
              subst hh
              rw [hm] at h
              exact Option.noConfusion h
            rw [resetRecord, hm]
            dsimp only
            rw [lookup_setFile_ne _ _ _ _ hmf]
            exact h

/-- Pattern-mode table invariant: every accepted entry matched the
pattern and stores its key as its filename. -/
def FilesInv (p : String → Bool) (fs : List (String × RegEntry)) : Prop :=
  ∀ g sf, (g, RegEntry.accepted sf) ∈ fs → p g = true ∧ sf.filename = g

/-- Pattern-mode session invariant. -/
def RegexInv (p : String → Bool) (st : ProfState) : Prop :=
  st.source_filename = none ∧ st.source_regex = some p ∧ FilesInv p st.files

theorem filesInv_touchActive {p : String → Bool} {st : ProfState} {k0 : FileKey}
    (h : FilesInv p st.files) : FilesInv p (touchActive st k0).files := by
  intro g sf hmem
  rcases mem_touchActive_files hmem with hm | ⟨sf0, hlk, hen⟩
  · exact h g sf hm
  · have h0 := h g sf0 (lookupFile_mem hlk)
    have hsf : sf = { sf0 with last_time := 0 } := by
      injection hen
    subst hsf
    exact ⟨h0.1, h0.2⟩

theorem filesInv_setFile_rejected {p : String → Bool} {fs : List (String × RegEntry)}
    {f : String} (h : FilesInv p fs) : FilesInv p (setFile fs f .rejected) := by
  intro g sf hmem
  rcases mem_setFile hmem with ⟨_, hen⟩ | hm
  · exact absurd hen (by simp)
  · exact h g sf hm

theorem filesInv_setFile_accepted {p : String → Bool} {fs : List (String × RegEntry)}
    {f : String} {sfn : Sourcefile} (h : FilesInv p fs)
    (hp : p f = true) (hfn : sfn.filename = f) :
    FilesInv p (setFile fs f (.accepted sfn)) := by
  intro g sf hmem
  rcases mem_setFile hmem with ⟨hg, hen⟩ | hm
  · subst hg
    have hsf : sf = sfn := by injection hen
    subst hsf
    exact ⟨hp, hfn⟩
  · exact h g sf hm

theorem regexInv_hook {p : String → Bool} {st : ProfState} (e : Event)
    (h : RegexInv p st) : RegexInv p (profiler_hook st e) := by
  obtain ⟨h1, h2, h3⟩ := h
  refine ⟨by rw [hook_source_filename]; exact h1, by rw [hook_source_regex]; exact h2, ?_⟩
  rcases hook_cases st e with hh | ⟨f, _, _, hsf, hh⟩ | ⟨f, sf, _, _, _, hlk, hh⟩
    | ⟨f, p2, _, _, _, hlk, hrx, hp, hh⟩ | ⟨f, p2, _, _, _, hlk, hrx, hp, hh⟩
  · rw [hh]
    exact h3
  · rw [hh]
    exact filesInv_touchActive h3
  · rw [hh]
    have hm := h3 f sf (lookupFile_mem hlk)
    exact filesInv_touchActive
      (filesInv_setFile_accepted h3 hm.1 (by rw [sample_filename]; exact hm.2))
  · rw [hh]
    have hp2 : p f = true := by
      have : p2 = p := by
        rw [h2] at hrx
        exact (Option.some_inj.mp hrx).symm
      rw [← this]
      exact hp
    exact filesInv_touchActive
      (filesInv_setFile_accepted (filesInv_setFile_accepted h3 hp2 rfl) hp2
        (by rw [sample_filename]))
  · rw [hh]
    exact filesInv_setFile_rejected h3

theorem regexInv_startState (p : String → Bool) (st : ProfState) :
    RegexInv p (startState { st with source_regex := some p, source_filename := none }) := by
  refine ⟨rfl, rfl, ?_⟩
  intro g sf hmem
  exact absurd hmem (List.not_mem_nil _)

theorem regexInv_runEvents (p : String → Bool) (evs : List Event) :
    ∀ st : ProfState, RegexInv p st → RegexInv p (runEvents st evs) := by
  induction evs with
  | nil => intro st h; exact h
  | cons e rest ih =>
    intro st h
    exact ih _ (regexInv_hook e h)

theorem mem_summarize {fs : List (String × RegEntry)} {name : String} {ls : List Nat}
    (h : (name, ls) ∈ summarize fs) :
    ∃ g sf, (g, RegEntry.accepted sf) ∈ fs ∧ sf.filename = name ∧ sf.lines = ls := by
  unfold summarize at h
  rcases List.mem_filterMap.mp h with ⟨kv, hmem, hmap⟩
  obtain ⟨g, en⟩ := kv
  cases en with
  | rejected => simp at hmap
  | accepted sf =>
    simp only [Option.some_inj, Prod.mk.injEq] at hmap
    exact ⟨g, sf, hmem, hmap.1, hmap.2⟩

theorem buildReport_regex (st : ProfState) (h : st.source_filename = none) :
    buildReport st = summarize st.files := by
  unfold buildReport
  rw [h]

theorem sessionResult_regex (st : ProfState) (p : String → Bool) (evs : List Event)
    (hen : st.enabled = false) :
    sessionResult st (.regex p) (some ⟨evs, false⟩)
      = buildReport { runEvents (startState { st with source_regex := some p, source_filename := none }) evs with enabled := false, hooked := false } := by
  unfold sessionResult
  rw [lineprof_regex st p _ hen, runSession_ok]

theorem resetRecord_setRegex (st : ProfState) (k : FileKey) (q : Option (String → Bool)) :
    resetRecord { st with source_regex := q } k
      = { resetRecord st k with source_regex := q } := by
  cases k with
  | single => rfl
  | reg m =>
    cases hm : lookupFile st.files m with
    | none => simp [resetRecord, hm]
    | some en => cases en <;> simp [resetRecord, hm]

theorem touchActive_setRegex (st : ProfState) (k : FileKey) (q : Option (String → Bool)) :
    touchActive { st with source_regex := q } k
      = { touchActive st k with source_regex := q } := by
  obtain ⟨en0, hk0, sfn, srx, fls, fl, lf⟩ := st
  unfold touchActive
  dsimp only
  cases lf with
  | none => rfl
  | some prev =>
    dsimp only
    by_cases hp : prev = k
    · rw [if_neg (by simp [hp]), if_neg (by simp [hp])]
    · rw [if_pos hp, if_pos hp,
        resetRecord_setRegex ⟨en0, hk0, sfn, srx, fls, fl, some prev⟩ prev q]

/-- C8: pattern exclusion.  (1) A file whose path does not match the
pattern never appears in the output mapping of a pattern session.
(2) At every prefix of the event trace such a file has no accepted
record — it is never allocated a FileRecord.  (3) Once a path is
classified (rejected or accepted), the hook's behaviour on its events
is a function of the stored classification only: it is identical under
every pattern, so the matcher is never re-run.  (4) In particular a
rejected path is dismissed with no state change at all. -/
theorem c8_pattern_exclusion (p : String → Bool) (st0 : ProfState) (evs : List Event)
    (f : String) (hp : p f = false) (hen : st0.enabled = false) :
    (∀ ls, (f, ls) ∉ sessionResult st0 (.regex p) (some ⟨evs, false⟩))
    ∧ (∀ n sf, lookupFile (runEvents (startState { st0 with source_regex := some p, source_filename := none }) (List.take n evs)).files f ≠ some (RegEntry.accepted sf))
    ∧ (∀ st : ProfState, ∀ e : Event, ∀ g : String, ∀ en : RegEntry,
        ∀ q : Option (String → Bool),
        st.source_filename = none → e.file = some g → lookupFile st.files g = some en →
        profiler_hook { st with source_regex := q } e
          = { profiler_hook st e with source_regex := q })
    ∧ (∀ st : ProfState, ∀ e : Event, ∀ g : String,
        st.source_filename = none → e.file = some g →
        lookupFile st.files g = some RegEntry.rejected → profiler_hook st e = st) := by
  refine ⟨?_, ?_, ?_, ?_⟩
  · intro ls hmem
    rw [sessionResult_regex st0 p evs hen] at hmem
    have hinv := regexInv_runEvents p evs _ (regexInv_startState p st0)
    generalize hX : runEvents (startState { st0 with source_regex := some p, source_filename := none }) evs = X at hmem hinv
    rw [buildReport_regex { X with enabled := false, hooked := false } hinv.1] at hmem
    have hmem2 : (f, ls) ∈ summarize X.files := hmem
    rcases mem_summarize hmem2 with ⟨g, sf, hgmem, hfn, _⟩
    have hinv2 := hinv.2.2 g sf hgmem
    rw [hinv2.2] at hfn
    subst hfn
    rw [hinv2.1] at hp
    exact Bool.noConfusion hp
  · intro n sf hlk
    have hinv := regexInv_runEvents p (List.take n evs) _ (regexInv_startState p st0)
    have hinv2 := hinv.2.2 f sf (lookupFile_mem hlk)
    rw [hinv2.1] at hp
    exact Bool.noConfusion hp
  · intro st e g en q hsf hf hc
    cases en with
    | rejected =>
      rw [hook_regex_rejected_eq st e g hsf hf hc,
        hook_regex_rejected_eq { st with source_regex := q } e g hsf hf hc]
    | accepted sf =>
      by_cases hl : e.line ≤ 0
      · rw [hook_line_nonpos st e hl, hook_line_nonpos { st with source_regex := q } e hl]
      · rw [hook_regex_accepted_eq st e g sf hsf hf hl hc,
          hook_regex_accepted_eq { st with source_regex := q } e g sf hsf hf hl hc]
        exact touchActive_setRegex { st with files := setFile st.files g (RegEntry.accepted (sample sf e.time e.line.toNat)) } (.reg g) q
  · intro st e g hsf hf hc
    exact hook_regex_rejected_eq st e g hsf hf hc

/-- The pattern used by the C8 witness: matches only `x.rb`. -/
def c8Pattern : String → Bool := fun s => s == "x.rb"

/-- Events for the C8 witness: one for the non-matching `y.rb`, one for
the matching `x.rb`. -/
def c8Events : List Event := [⟨some "y.rb", 1, 10⟩, ⟨some "x.rb", 2, 20⟩]

/-- A pattern-mode state in which `y.rb` is already classified
rejected. -/
def c8RejState : ProfState := { initState with files := [("y.rb", RegEntry.rejected)] }

/-- Witness for C8: `y.rb` (which the pattern rejects) is absent from
the session report, holds no accepted record after the full trace, and
once cached as rejected its events leave the state untouched. -/
theorem c8_witness :
    ("y.rb", ([] : List Nat)) ∉ sessionResult initState (.regex c8Pattern) (some ⟨c8Events, false⟩)
    ∧ lookupFile (runEvents (startState { initState with source_regex := some c8Pattern, source_filename := none }) (List.take 2 c8Events)).files "y.rb" ≠ some (RegEntry.accepted { filename := "y.rb", lines := [], last_time := 0, last_line := 0 })
    ∧ profiler_hook c8RejState ⟨some "y.rb", 3, 30⟩ = c8RejState := by
  have h := c8_pattern_exclusion c8Pattern initState c8Events "y.rb" (by decide) rfl
  refine ⟨h.1 [], h.2.1 2 _, ?_⟩
  exact h.2.2.2 c8RejState ⟨some "y.rb", 3, 30⟩ "y.rb" rfl rfl (by decide)

theorem not_mem_of_lookup_none {fs : List (String × RegEntry)} {f : String}
    (h : lookupFile fs f = none) : ∀ en, (f, en) ∉ fs := by
  induction fs with
  | nil =>
    intro en hm
    exact absurd hm (List.not_mem_nil _)
  | cons kv rest ih =>
    obtain ⟨k, v⟩ := kv
    by_cases hk : k = f
    · subst hk
      simp [lookupFile] at h
    · intro en hm
      rcases List.mem_cons.mp hm with he | hm2
      · exact hk (congrArg Prod.fst he).symm
      · simp only [lookupFile, hk, if_false] at h
        exact ih h en hm2

theorem hook_out_of_scope_single (st : ProfState) (target : String) (e : Event)
    (hsf : st.source_filename = some target) (hs : inScopeSingle target e = false) :
    profiler_hook st e = st := by
  by_cases hl : e.line ≤ 0
  · exact hook_line_nonpos st e hl
  · cases hf : e.file with
    | none => exact hook_file_none st e hf
    | some f =>
      have hne : target ≠ f := by
        intro h
        subst h
        have ht : inScopeSingle target e = true := by
          simp only [inScopeSingle, hf, beq_self_eq_true, Bool.true_and,
            decide_eq_true_eq]
          omega
        rw [hs] at ht
        exact Bool.noConfusion ht
      exact hook_single_skip st e target f hsf hf hne

theorem runEvents_single_filter (target : String) (evs : List Event) :
    ∀ st : ProfState, st.source_filename = some target →
      runEvents st evs = runEvents st (evs.filter (inScopeSingle target)) := by
  induction evs with
  | nil => intro st _; rfl
  | cons e rest ih =>
    intro st hsf
    by_cases hs : inScopeSingle target e = true
    · have hfl : (e :: rest).filter (inScopeSingle target)
          = e :: rest.filter (inScopeSingle target) := by
        simp [List.filter, hs]
      rw [hfl]
      show runEvents (profiler_hook st e) rest
        = runEvents (profiler_hook st e) (rest.filter (inScopeSingle target))
      exact ih (profiler_hook st e) (by rw [hook_source_filename]; exact hsf)
    · have hs2 : inScopeSingle target e = false := by simpa using hs
      have hfl : (e :: rest).filter (inScopeSingle target)
          = rest.filter (inScopeSingle target) := by
        simp [List.filter, hs2]
      have hid := hook_out_of_scope_single st target e hsf hs2
      show runEvents (profiler_hook st e) rest = _
      rw [hid, hfl]
      exact ih st hsf

theorem accEmpty_hook {p : String → Bool} {f : String} {st : ProfState} (e : Event)
    (hinv : RegexInv p st) (hns : inScopeReg p f e = false)
    (hemp : ∀ sf, (f, RegEntry.accepted sf) ∈ st.files → sf.lines = []) :
    ∀ sf, (f, RegEntry.accepted sf) ∈ (profiler_hook st e).files → sf.lines = [] := by
  intro sf hmem
  rcases hook_cases st e with hh | ⟨g, _, _, hsf, hh⟩ | ⟨g, sfg, hfe, hle, _, hlk, hh⟩
    | ⟨g, p2, hfe, hle, _, hlk, hrx, hpg, hh⟩ | ⟨g, p2, hfe, hle, _, hlk, hrx, hpg, hh⟩
  · rw [hh] at hmem
    exact hemp sf hmem
  · rw [hinv.1] at hsf
    exact Option.noConfusion hsf
  · have hfg : f ≠ g := by
      intro hh2
      subst hh2
      have hpf := (hinv.2.2 f sfg (lookupFile_mem hlk)).1
      have ht : inScopeReg p f e = true := by
        simp only [inScopeReg, hfe, beq_self_eq_true, Bool.true_and, hpf, Bool.and_true,
          decide_eq_true_eq]
        omega
      rw [hns] at ht
      exact Bool.noConfusion ht
    rw [hh] at hmem
    rcases mem_touchActive_files hmem with hm2 | ⟨sf0, hlk0, hen⟩
    · rcases mem_setFile hm2 with ⟨hfg2, _⟩ | hm3
      · exact absurd hfg2 hfg
      · exact hemp sf hm3
    · have hlk1 : lookupFile st.files f = some (RegEntry.accepted sf0) := by
        have hhh := lookup_setFile_ne st.files g f
          (RegEntry.accepted (sample sfg e.time e.line.toNat)) (fun hh2 => hfg hh2.symm)
        rw [← hhh]
        exact hlk0
      have hl0 := hemp sf0 (lookupFile_mem hlk1)
      have hsfeq : sf = { sf0 with last_time := 0 } := by
        injection hen
      rw [hsfeq]
      exact hl0
  · have hp2p : p2 = p := by
      have hx := hinv.2.1
      rw [hx] at hrx
      exact (Option.some_inj.mp hrx).symm
    have hfg : f ≠ g := by
      intro hh2
      subst hh2
      have ht : inScopeReg p f e = true := by
        simp only [inScopeReg, hfe, beq_self_eq_true, Bool.true_and,
          hp2p ▸ hpg, Bool.and_true, decide_eq_true_eq]
        omega
      rw [hns] at ht
      exact Bool.noConfusion ht
    rw [hh] at hmem
    rcases mem_touchActive_files hmem with hm2 | ⟨sf0, hlk0, hen⟩
    · rcases mem_setFile hm2 with ⟨hfg2, _⟩ | hm3
      · exact absurd hfg2 hfg
      · rcases mem_setFile hm3 with ⟨hfg2, _⟩ | hm4
        · exact absurd hfg2 hfg
        · exact hemp sf hm4
    · have hlk1 : lookupFile st.files f = some (RegEntry.accepted sf0) := by
        have hh1 := lookup_setFile_ne (setFile st.files g (RegEntry.accepted { filename := g, lines := [], last_time := 0, last_line := 0 })) g f
          (RegEntry.accepted (sample { filename := g, lines := [], last_time := 0, last_line := 0 } e.time e.line.toNat)) (fun hh2 => hfg hh2.symm)
        have hh2 := lookup_setFile_ne st.files g f
          (RegEntry.accepted { filename := g, lines := [], last_time := 0, last_line := 0 }) (fun hh2 => hfg hh2.symm)
        rw [← hh2, ← hh1]
        exact hlk0
      have hl0 := hemp sf0 (lookupFile_mem hlk1)
      have hsfeq : sf = { sf0 with last_time := 0 } := by
        injection hen
      rw [hsfeq]
      exact hl0
  · rw [hh] at hmem
    rcases mem_setFile hmem with ⟨_, hen⟩ | hm3
    · exact absurd hen (by simp)
    · exact hemp sf hm3

theorem accEmpty_run_no_scope (p : String → Bool) (f : String) (evs : List Event) :
    ∀ st : ProfState, RegexInv p st →
      (evs.filter (inScopeReg p f)).length = 0 →
      (∀ sf, (f, RegEntry.accepted sf) ∈ st.files → sf.lines = []) →
      ∀ sf, (f, RegEntry.accepted sf) ∈ (runEvents st evs).files → sf.lines = [] := by
  induction evs with
  | nil =>
    intro st _ _ h
    exact h
  | cons e rest ih =>
    intro st hinv hcnt hemp
    have hce : inScopeReg p f e = false := by
      by_contra hh
      have ht : inScopeReg p f e = true := by simpa using hh
      simp [List.filter, ht] at hcnt
    have hcr : (rest.filter (inScopeReg p f)).length = 0 := by
      simpa [List.filter, hce] using hcnt
    exact ih (profiler_hook st e) (regexInv_hook e hinv) hcr
      (accEmpty_hook e hinv hce hemp)

theorem lookup_none_hook {p : String → Bool} {f : String} {st : ProfState} (e : Event)
    (hinv : RegexInv p st) (hpf : p f = true) (hns : inScopeReg p f e = false)
    (hnone : lookupFile st.files f = none) :
    lookupFile (profiler_hook st e).files f = none := by
  rcases hook_cases st e with hh | ⟨g, _, _, hsf, hh⟩ | ⟨g, sfg, hfe, hle, _, hlk, hh⟩
    | ⟨g, p2, hfe, hle, _, hlk, hrx, hpg, hh⟩ | ⟨g, p2, hfe, hle, _, hlk, hrx, hpg, hh⟩
  · rw [hh]
    exact hnone
  · rw [hinv.1] at hsf
    exact Option.noConfusion hsf
  · have hgf : g ≠ f := by
      intro hh2
      subst hh2
      rw [hnone] at hlk
      exact Option.noConfusion hlk
    rw [hh]
    apply touchActive_lookup_none
    show lookupFile (setFile st.files g (RegEntry.accepted (sample sfg e.time e.line.toNat))) f = none
    rw [lookup_setFile_ne _ _ _ _ hgf]
    exact hnone
  · have hp2p : p2 = p := by
      have hx := hinv.2.1
      rw [hx] at hrx
      exact (Option.some_inj.mp hrx).symm
    have hgf : g ≠ f := by
      intro hh2
      subst hh2
      have ht : inScopeReg p g e = true := by
        simp only [inScopeReg, hfe, beq_self_eq_true, Bool.true_and,
          hp2p ▸ hpg, Bool.and_true, decide_eq_true_eq]
        omega
      rw [hns] at ht
      exact Bool.noConfusion ht
    rw [hh]
    apply touchActive_lookup_none
    show lookupFile (setFile (setFile st.files g (RegEntry.accepted { filename := g, lines := [], last_time := 0, last_line := 0 })) g (RegEntry.accepted (sample { filename := g, lines := [], last_time := 0, last_line := 0 } e.time e.line.toNat))) f = none
    rw [lookup_setFile_ne _ _ _ _ hgf, lookup_setFile_ne _ _ _ _ hgf]
    exact hnone
  · have hp2p : p2 = p := by
      have hx := hinv.2.1
      rw [hx] at hrx
      exact (Option.some_inj.mp hrx).symm
    have hgf : g ≠ f := by
      intro hh2
      subst hh2
      rw [hp2p] at hpg
      rw [hpg] at hpf
      exact Bool.noConfusion hpf
    rw [hh]
    show lookupFile (setFile st.files g RegEntry.rejected) f = none
    rw [lookup_setFile_ne _ _ _ _ hgf]
    exact hnone

theorem accEmpty_after_one (p : String → Bool) (f : String) (evs : List Event) :
    ∀ st : ProfState, RegexInv p st → p f = true →
      (evs.filter (inScopeReg p f)).length ≤ 1 →
      lookupFile st.files f = none →
      ∀ sf, (f, RegEntry.accepted sf) ∈ (runEvents st evs).files → sf.lines = [] := by
  induction evs with
  | nil =>
    intro st _ _ _ hnone sf hmem
    exact absurd hmem (not_mem_of_lookup_none hnone _)
  | cons e rest ih =>
    intro st hinv hpf hcnt hnone sf hmem
    by_cases hs : inScopeReg p f e = true
    · have hrest0 : (rest.filter (inScopeReg p f)).length = 0 := by
        simp only [List.filter, hs, List.length_cons] at hcnt
        omega
      obtain ⟨hfe, hle⟩ : e.file = some f ∧ 0 < e.line := by
        simp only [inScopeReg, Bool.and_eq_true, beq_iff_eq, decide_eq_true_eq] at hs
        exact ⟨hs.1.1, hs.1.2⟩
      have hle2 : ¬ e.line ≤ 0 := by omega
      have hh := hook_regex_fresh_eq st e f p hinv.1 hfe hle2 hnone hinv.2.1 hpf
      refine accEmpty_run_no_scope p f rest (profiler_hook st e)
        (regexInv_hook e hinv) hrest0 ?_ sf hmem
      intro sf2 hm2
      rw [hh] at hm2
      rcases mem_touchActive_files hm2 with hm3 | ⟨sf0, hlk0, hen⟩
      · rcases mem_setFile hm3 with ⟨_, hen⟩ | hm4
        · have hsfeq : sf2 = sample { filename := f, lines := [], last_time := 0, last_line := 0 } e.time e.line.toNat := by
            injection hen
          rw [hsfeq]
          exact sample_lines_of_zero _ _ _ rfl
        · rcases mem_setFile hm4 with ⟨_, hen⟩ | hm5
          · have hsfeq : sf2 = { filename := f, lines := [], last_time := 0, last_line := 0 } := by
              injection hen
            rw [hsfeq]
          · exact absurd hm5 (not_mem_of_lookup_none hnone _)
      · have hlk1 : lookupFile (setFile (setFile st.files f (RegEntry.accepted { filename := f, lines := [], last_time := 0, last_line := 0 })) f (RegEntry.accepted (sample { filename := f, lines := [], last_time := 0, last_line := 0 } e.time e.line.toNat))) f = some (RegEntry.accepted sf0) := hlk0
        rw [lookup_setFile_eq] at hlk1
        have hsf0 : sf0 = sample { filename := f, lines := [], last_time := 0, last_line := 0 } e.time e.line.toNat := by
          have := Option.some_inj.mp hlk1
          injection this.symm
        have hsfeq : sf2 = { sf0 with last_time := 0 } := by
          injection hen
        rw [hsfeq, hsf0]
        show (sample { filename := f, lines := [], last_time := 0, last_line := 0 } e.time e.line.toNat).lines = []
        exact sample_lines_of_zero _ _ _ rfl
    · have hs2 : inScopeReg p f e = false := by simpa using hs
      have hcnt2 : (rest.filter (inScopeReg p f)).length ≤ 1 := by
        simpa [List.filter, hs2] using hcnt
      exact ih (profiler_hook st e) (regexInv_hook e hinv) hpf hcnt2
        (lookup_none_hook e hinv hpf hs2 hnone) sf hmem

theorem sessionResult_str_report (st : ProfState) (target : String) (evs : List Event)
    (hen : st.enabled = false) :
    sessionResult st (.str target) (some ⟨evs, false⟩)
      = buildReport { runEvents (startState { st with source_filename := some target }) evs with enabled := false, hooked := false } := by
  unfold sessionResult
  rw [lineprof_str st target _ hen, runSession_ok]

/-- C10: a record that receives at most one in-scope event during a
session started from the clean state never allocates its line array and
reports an empty sequence.  In single-file mode the report is exactly
`[(target, [])]`; in pattern mode every report entry for such a file is
empty. -/
theorem c10_at_most_one_event_empty :
    (∀ target : String, ∀ evs : List Event,
        (evs.filter (inScopeSingle target)).length ≤ 1 →
        sessionResult initState (.str target) (some ⟨evs, false⟩) = [(target, [])])
    ∧ (∀ p : String → Bool, ∀ evs : List Event, ∀ f : String, ∀ ls : List Nat,
        (evs.filter (inScopeReg p f)).length ≤ 1 →
        (f, ls) ∈ sessionResult initState (.regex p) (some ⟨evs, false⟩) → ls = []) := by
  constructor
  · intro target evs hcnt
    rw [sessionResult_str_report initState target evs rfl]
    rw [runEvents_single_filter target evs
      (startState { initState with source_filename := some target }) rfl]
    cases hfl : evs.filter (inScopeSingle target) with
    | nil => rfl
    | cons e tail =>
      have htail : tail = [] := by
        rw [hfl] at hcnt
        simp only [List.length_cons] at hcnt
        exact List.eq_nil_of_length_eq_zero (by omega)
      subst htail
      have hse : inScopeSingle target e = true := by
        have hm : e ∈ evs.filter (inScopeSingle target) := by
          rw [hfl]
          exact List.mem_cons_self _ _
        exact (List.mem_filter.mp hm).2
      obtain ⟨hfe, hle⟩ : e.file = some target ∧ 0 < e.line := by
        simp only [inScopeSingle, Bool.and_eq_true, beq_iff_eq, decide_eq_true_eq] at hse
        exact hse
      have hstep := hook_single_eq (startState { initState with source_filename := some target })
        e target rfl hfe hle (Or.inl rfl)
      show buildReport { profiler_hook (startState { initState with source_filename := some target }) e with enabled := false, hooked := false } = [(target, [])]
      rw [hstep]
      show [(target, (sample { (startState { initState with source_filename := some target }).file with filename := target } e.time e.line.toNat).lines)] = [(target, ([] : List Nat))]
      rw [sample_lines_of_zero _ _ _ rfl]
      rfl
  · intro p evs f ls hcnt hmem
    rw [sessionResult_regex initState p evs rfl] at hmem
    have hinv := regexInv_runEvents p evs _ (regexInv_startState p initState)
    by_cases hpf : p f = true
    · have hemp := accEmpty_after_one p f evs
        (startState { initState with source_regex := some p, source_filename := none })
        (regexInv_startState p initState) hpf hcnt rfl
      generalize hX : runEvents (startState { initState with source_regex := some p, source_filename := none }) evs = X at hmem hinv hemp
      rw [buildReport_regex { X with enabled := false, hooked := false } hinv.1] at hmem
      have hmem2 : (f, ls) ∈ summarize X.files := hmem
      rcases mem_summarize hmem2 with ⟨g, sf, hgmem, hfn, hlines⟩
      have hinv2 := hinv.2.2 g sf hgmem
      have hgf : g = f := by
        rw [← hfn, hinv2.2]
      subst hgf
      rw [← hlines]
      exact hemp sf hgmem
    · generalize hX : runEvents (startState { initState with source_regex := some p, source_filename := none }) evs = X at hmem hinv
      rw [buildReport_regex { X with enabled := false, hooked := false } hinv.1] at hmem
      have hmem2 : (f, ls) ∈ summarize X.files := hmem
      rcases mem_summarize hmem2 with ⟨g, sf, hgmem, hfn, _⟩
      have hinv2 := hinv.2.2 g sf hgmem
      have hgf : g = f := by
        rw [← hfn, hinv2.2]
      subst hgf
      exact absurd hinv2.1 hpf

set_option maxRecDepth 8000 in
/-- Witness for C10: a clean single-file session on `a.rb` whose only
event is `(t=100, l=1)` reports the mapping `[("a.rb", [])]`, and a
pattern session in which `m.rb` fires exactly one event reports an
empty sequence for `m.rb`. -/
theorem c10_witness :
    sessionResult initState (.str "a.rb") (some ⟨[⟨some "a.rb", 1, 100⟩], false⟩) = [("a.rb", [])]
    ∧ ([] : List Nat) = [] := by
  constructor
  · exact c10_at_most_one_event_empty.1 "a.rb" [⟨some "a.rb", 1, 100⟩] (by decide)
  · exact c10_at_most_one_event_empty.2 (fun s => s == "m.rb") [⟨some "m.rb", 4, 9⟩]
      "m.rb" [] (by decide) (by decide)

end Rblineprof
